import Mathlib

/-!
# Medicine stock tracker: embedding of `c-project.c`

The C program keeps two global arrays (`meds`, `branchMeds`) with their counts
(`medCount`, `branchCount`) and offers menu operations over them.  The arrays
are embedded as functions from slot index to record, the counts as natural
numbers, and every operation as a function on the resulting `State`.  Loops are
written as recursions whose first argument is the number of iterations left.
Values typed at a prompt are parameters of the operation; `readInt` and
`readString` embed what the input helpers do to a typed value.
-/

namespace Pharmacy

/-! ## Constants -/

def MAX_MEDICINES : Nat := 200
def MAX_NAME_LEN : Nat := 50
def MAX_COMPANY_LEN : Nat := 40
def MAX_BRANCH : Nat := 50

/-- Bit 0 of `flags`: the medicine is available. -/
def FLAG_AVAILABLE : Nat := 0x01
/-- Bit 1 of `flags`: a prescription is required. -/
def FLAG_PRESCRIPTION : Nat := 0x02

/-! ## Data model -/

/-- The `Medicine` struct.  A `char[]` field is the list of the bytes that
precede its terminating NUL.  `flags` only ever holds the values 0..3. -/
structure Medicine where
  id : Int
  name : List Nat
  company : List Nat
  quantity : Int
  expiryMonth : Int
  expiryYear : Int
  price : Int
  flags : Nat
  deriving DecidableEq, Repr

/-- A zero-initialised record, the content of every slot of a static array
at program start. -/
def zeroMedicine : Medicine :=
  { id := 0, name := [], company := [], quantity := 0, expiryMonth := 0,
    expiryYear := 0, price := 0, flags := 0 }

instance : Inhabited Medicine := ⟨zeroMedicine⟩

/-- The global state: `meds[]` with `medCount`, `branchMeds[]` with
`branchCount`.  The counts start at 0 and are decremented only after a
successful lookup, so they never go below 0 and are natural numbers here.
An array is a function of the slot index; the operations read slots below the
count and write a new slot only after the test against the array size. -/
structure State where
  meds : Nat → Medicine
  medCount : Nat
  branchMeds : Nat → Medicine
  branchCount : Nat

/-- The state at program start: both arrays zero-filled, both counts 0. -/
def init : State :=
  { meds := fun _ => zeroMedicine, medCount := 0,
    branchMeds := fun _ => zeroMedicine, branchCount := 0 }

/-- The records of the main store: slots `0 .. medCount-1` in order. -/
def live (s : State) : List Medicine := (List.range s.medCount).map s.meds

/-- The records of the branch store: slots `0 .. branchCount-1` in order. -/
def liveBranch (s : State) : List Medicine := (List.range s.branchCount).map s.branchMeds

/-- The bytes of a string literal. -/
def bytes (str : String) : List Nat := str.toList.map Char.toNat

/-! ## Input helpers -/

/-- The value `readInt` returns once an integer `x` has been typed: clamped
into `min..max` when `min <= max`, returned as typed otherwise. -/
def readInt (x min max : Int) : Int :=
  if min ≤ max then
    let x1 := if x < min then min else x
    if x1 > max then max else x1
  else x

/-- The token `readString` stores: at most `maxlen - 1` bytes of the typed
token when `maxlen > 1`, the whole token otherwise. -/
def readString (tok : List Nat) (maxlen : Nat) : List Nat :=
  if maxlen > 1 then tok.take (maxlen - 1) else tok

/-- The sign of C `strcmp` on two NUL-terminated byte strings: negative, zero
or positive as the first differing byte (or the end of one string) decides. -/
def strcmp : List Nat → List Nat → Int
  | [], [] => 0
  | [], _ :: _ => -1
  | _ :: _, [] => 1
  | a :: as, b :: bs => if a = b then strcmp as bs else if a < b then -1 else 1

/-! ## Lookup -/

/-- The loop of `findMedicineIndexById` from index `i` with `n` iterations left. -/
def findIdLoop (meds : Nat → Medicine) (id : Int) : Nat → Nat → Int
  | 0, _ => -1
  | n + 1, i => if (meds i).id = id then (i : Int) else findIdLoop meds id n (i + 1)

/-- Index of the first record with the given id, or -1. -/
def findMedicineIndexById (s : State) (id : Int) : Int :=
  findIdLoop s.meds id s.medCount 0

/-- The loop of `findMedicineIndexByName` from index `i` with `n` iterations left. -/
def findNameLoop (meds : Nat → Medicine) (name : List Nat) : Nat → Nat → Int
  | 0, _ => -1
  | n + 1, i =>
    if strcmp (meds i).name name = 0 then (i : Int) else findNameLoop meds name n (i + 1)

/-- Index of the first record with exactly the given name, or -1. -/
def findMedicineIndexByName (s : State) (name : List Nat) : Int :=
  findNameLoop s.meds name s.medCount 0

/-- Exchange of two array slots, as `swapMedicines(&a[i], &a[j])` does. -/
def swapMedicines (a : Nat → Medicine) (i j : Nat) : Nat → Medicine :=
  let tmp := a i
  Function.update (Function.update a i (a j)) j tmp

/-! ## Sample data -/

/-- A whole record from its eight fields, in declaration order. -/
def mkMed (id : Int) (name company : String) (quantity expiryMonth expiryYear price : Int)
    (flags : Nat) : Medicine :=
  { id := id, name := bytes name, company := bytes company, quantity := quantity,
    expiryMonth := expiryMonth, expiryYear := expiryYear, price := price, flags := flags }

/-- Fills slots 0..4 with the five samples unless the store already holds
a record. -/
def populateSampleData (s : State) : State :=
  if s.medCount > 0 then s
  else
    let a0 := Function.update s.meds 0
      (mkMed 101 "Paracetamol" "HealCo" 120 11 2025 5 FLAG_AVAILABLE)
    let a1 := Function.update a0 1
      (mkMed 102 "Ibuprofen" "CureLabs" 60 4 2024 8 (FLAG_AVAILABLE ||| FLAG_PRESCRIPTION))
    let a2 := Function.update a1 2
      (mkMed 103 "Cetirizine" "Allergix" 10 2 2024 3 FLAG_AVAILABLE)
    let a3 := Function.update a2 3
      (mkMed 104 "Amoxicillin" "BioPharm" 0 8 2023 12 0)
    let a4 := Function.update a3 4
      (mkMed 105 "VitaminC" "NutriPlus" 200 6 2026 2 FLAG_AVAILABLE)
    { s with medCount := 5, meds := a4 }

/-- Overwrites branch slots 0..2 with the three branch samples and sets
`branchCount` to 3. -/
def branchAddSample (s : State) : State :=
  let b0 := Function.update s.branchMeds 0
    (mkMed 201 "Dolo650" "MediCorp" 50 12 2025 6 FLAG_AVAILABLE)
  let b1 := Function.update b0 1
    (mkMed 202 "Paracetamol" "HealCo" 30 10 2024 5 FLAG_AVAILABLE)
  let b2 := Function.update b1 2
    (mkMed 203 "Zincovit" "NutraLife" 90 6 2026 15 FLAG_AVAILABLE)
  { s with branchCount := 3, branchMeds := b2 }

/-! ## Adding -/

/-- What is typed for one pass of the add loop: the id, then (when the id is
new) name, company, quantity, expiry month and year, price and the
prescription answer. -/
structure Entry where
  id : Int
  name : List Nat
  company : List Nat
  quantity : Int
  expiryMonth : Int
  expiryYear : Int
  price : Int
  pres : Int
  deriving DecidableEq, Repr

/-- The record `m` that one pass of the add loop builds from what was typed. -/
def entryMedicine (e : Entry) : Medicine :=
  let flags0 := if e.pres ≠ 0 then FLAG_PRESCRIPTION else 0
  let quantity := readInt e.quantity 0 1000000
  { id := readInt e.id 1 1000000,
    name := readString e.name MAX_NAME_LEN,
    company := readString e.company MAX_COMPANY_LEN,
    quantity := quantity,
    expiryMonth := readInt e.expiryMonth 1 12,
    expiryYear := readInt e.expiryYear 2020 9999,
    price := readInt e.price 0 1000000,
    flags := if quantity > 0 then flags0 ||| FLAG_AVAILABLE else flags0 }

/-- The loop of `addMedicines` with counter `i` and bound `n`; each pass
consumes one typed entry.  A pass whose id already exists leaves `i` as it
was (`i--` then `++i`).  When nothing more is typed the program waits at a
prompt and the state is the one reached so far. -/
def addLoop (n : Int) : List Entry → Int → State → State
  | [], _, s => s
  | e :: es, i, s =>
    if i < n then
      if s.medCount ≥ MAX_MEDICINES then s
      else if findMedicineIndexById s (readInt e.id 1 1000000) ≠ -1 then
        addLoop n es (i - 1 + 1) s
      else
        addLoop n es (i + 1)
          { s with meds := Function.update s.meds s.medCount (entryMedicine e),
                   medCount := s.medCount + 1 }
    else s

/-- Adds up to `readInt n 1 (MAX_MEDICINES - medCount)` records from the typed
entries. -/
def addMedicines (s : State) (n : Int) (entries : List Entry) : State :=
  addLoop (readInt n 1 ((MAX_MEDICINES : Int) - s.medCount)) entries 0 s

/-! ## Update, delete, toggle -/

/-- Field update of the record with the typed id.  `choice` selects the field;
`tok` is the token typed for a name or company, `x` the integer typed for
quantity, expiry month or price, `y` the integer typed for the expiry year.
`~FLAG_AVAILABLE` is the 32-bit mask `0xFFFFFFFE`. -/
def updateMedicineById (s : State) (id choice : Int) (tok : List Nat) (x y : Int) : State :=
  if s.medCount = 0 then s
  else
    let id := readInt id 1 1000000
    let idx := findMedicineIndexById s id
    if idx = -1 then s
    else
      let m := s.meds idx.toNat
      let choice := readInt choice 1 7
      let m1 : Medicine :=
        if choice = 1 then { m with name := readString tok MAX_NAME_LEN }
        else if choice = 2 then { m with company := readString tok MAX_COMPANY_LEN }
        else if choice = 3 then
          let q := readInt x 0 1000000
          { m with quantity := q,
                   flags := if q > 0 then m.flags ||| FLAG_AVAILABLE
                            else m.flags &&& (0xFFFFFFFF - FLAG_AVAILABLE) }
        else if choice = 4 then
          { m with expiryMonth := readInt x 1 12, expiryYear := readInt y 2020 9999 }
        else if choice = 5 then { m with price := readInt x 0 1000000 }
        else if choice = 6 then { m with flags := m.flags ^^^ FLAG_PRESCRIPTION }
        else m
      { s with meds := Function.update s.meds idx.toNat m1 }

/-- The shifting loop of `deleteMedicineById`: `meds[i] = meds[i+1]` from
index `i` with `n` iterations left. -/
def shiftLoop : Nat → Nat → (Nat → Medicine) → (Nat → Medicine)
  | 0, _, a => a
  | n + 1, i, a => shiftLoop n (i + 1) (Function.update a i (a (i + 1)))

/-- Deletes the record with the typed id by shifting the later records down. -/
def deleteMedicineById (s : State) (id : Int) : State :=
  if s.medCount = 0 then s
  else
    let id := readInt id 1 1000000
    let idx := findMedicineIndexById s id
    if idx = -1 then s
    else
      { s with meds := shiftLoop (s.medCount - 1 - idx.toNat) idx.toNat s.meds,
               medCount := s.medCount - 1 }

/-- What `toggleAvailabilityById` prints. -/
inductive ToggleMsg where
  | noMedicines
  | notFound
  | toggled (id : Int) (nowAvailable : Bool)
  deriving DecidableEq, Repr

/-- Flips bit 0 of the flags of the record with the typed id and reports the
new state of the bit. -/
def toggleAvailabilityById (s : State) (id : Int) : State × ToggleMsg :=
  if s.medCount = 0 then (s, ToggleMsg.noMedicines)
  else
    let id := readInt id 1 1000000
    let idx := findMedicineIndexById s id
    if idx = -1 then (s, ToggleMsg.notFound)
    else
      let m := s.meds idx.toNat
      let m1 : Medicine := { m with flags := m.flags ^^^ FLAG_AVAILABLE }
      ({ s with meds := Function.update s.meds idx.toNat m1 },
       ToggleMsg.toggled id (m1.flags &&& FLAG_AVAILABLE ≠ 0))

/-! ## Searches and reminders (read-only) -/

/-- What `searchByName` prints. -/
inductive SearchMsg where
  | databaseEmpty
  | notFound (q : List Nat)
  | display (m : Medicine)
  deriving DecidableEq, Repr

/-- Looks the typed name up and displays the first record that has it. -/
def searchByName (s : State) (tok : List Nat) : SearchMsg :=
  if s.medCount = 0 then SearchMsg.databaseEmpty
  else
    let q := readString tok MAX_NAME_LEN
    let idx := findMedicineIndexByName s q
    if idx = -1 then SearchMsg.notFound q
    else SearchMsg.display (s.meds idx.toNat)

/-- The loop of `searchByExpiry` from index `i` with `n` iterations left: the
records handed to `displayMedicine`, in order. -/
def expirySearchLoop (meds : Nat → Medicine) (month year : Int) : Nat → Nat → List Medicine
  | 0, _ => []
  | n + 1, i =>
    let ok0 : Bool := true
    let ok1 := if month ≠ 0 ∧ (meds i).expiryMonth ≠ month then false else ok0
    let ok2 := if year ≠ 0 ∧ (meds i).expiryYear ≠ year then false else ok1
    if ok2 then meds i :: expirySearchLoop meds month year n (i + 1)
    else expirySearchLoop meds month year n (i + 1)

/-- The records `searchByExpiry` displays for the typed month and year
(0 skips the field). -/
def searchByExpiry (s : State) (month year : Int) : List Medicine :=
  if s.medCount = 0 then []
  else expirySearchLoop s.meds (readInt month 0 12) (readInt year 0 9999) s.medCount 0

/-- The loop of `lowStockReminder` from index `i` with `n` iterations left. -/
def lowStockLoop (meds : Nat → Medicine) (thresh : Int) : Nat → Nat → List Medicine
  | 0, _ => []
  | n + 1, i =>
    if (meds i).quantity ≤ thresh then meds i :: lowStockLoop meds thresh n (i + 1)
    else lowStockLoop meds thresh n (i + 1)

/-- The records `lowStockReminder` reports for the typed threshold. -/
def lowStockReminder (s : State) (thresh : Int) : List Medicine :=
  if s.medCount = 0 then []
  else lowStockLoop s.meds (readInt thresh 0 1000000) s.medCount 0

/-- The loop of `expiryReminderForYear` from index `i` with `n` iterations left. -/
def expiryReminderLoop (meds : Nat → Medicine) (year : Int) : Nat → Nat → List Medicine
  | 0, _ => []
  | n + 1, i =>
    if (meds i).expiryYear ≤ year then meds i :: expiryReminderLoop meds year n (i + 1)
    else expiryReminderLoop meds year n (i + 1)

/-- The records `expiryReminderForYear(year)` reports. -/
def expiryReminderForYear (s : State) (year : Int) : List Medicine :=
  if s.medCount = 0 then []
  else expiryReminderLoop s.meds year s.medCount 0

/-! ## Sorting -/

/-- Inner loop of `sortByExpirySoonest` for a fixed `i`, from index `j` with
`n` iterations left. -/
def expiryInner (i : Nat) : Nat → Nat → (Nat → Medicine) → (Nat → Medicine)
  | 0, _, a => a
  | n + 1, j, a =>
    expiryInner i n (j + 1)
      (if (a j).expiryYear < (a i).expiryYear ∨
          ((a j).expiryYear = (a i).expiryYear ∧ (a j).expiryMonth < (a i).expiryMonth)
       then swapMedicines a i j else a)

/-- Outer loop of `sortByExpirySoonest` from index `i` with `n` iterations left. -/
def expiryOuter (medCount : Nat) : Nat → Nat → (Nat → Medicine) → (Nat → Medicine)
  | 0, _, a => a
  | n + 1, i, a => expiryOuter medCount n (i + 1) (expiryInner i (medCount - (i + 1)) (i + 1) a)

/-- Exchange sort by ascending expiry year, then month. -/
def sortByExpirySoonest (s : State) : State :=
  if s.medCount < 2 then s
  else { s with meds := expiryOuter s.medCount (s.medCount - 1) 0 s.meds }

/-- Inner loop of `sortByNameAsc` for a fixed `i`, from index `j` with `n`
iterations left. -/
def nameInner (i : Nat) : Nat → Nat → (Nat → Medicine) → (Nat → Medicine)
  | 0, _, a => a
  | n + 1, j, a =>
    nameInner i n (j + 1)
      (if strcmp (a i).name (a j).name > 0 then swapMedicines a i j else a)

/-- Outer loop of `sortByNameAsc` from index `i` with `n` iterations left. -/
def nameOuter (medCount : Nat) : Nat → Nat → (Nat → Medicine) → (Nat → Medicine)
  | 0, _, a => a
  | n + 1, i, a => nameOuter medCount n (i + 1) (nameInner i (medCount - (i + 1)) (i + 1) a)

/-- Exchange sort by ascending name under `strcmp`. -/
def sortByNameAsc (s : State) : State :=
  if s.medCount < 2 then s
  else { s with meds := nameOuter s.medCount (s.medCount - 1) 0 s.meds }

/-! ## Merge -/

/-- What `mergeBranchIntoMain` prints, line by line. -/
inductive MergeMsg where
  | branchEmpty
  | duplicateSkipped (name : List Nat)
  | mainFull
  | merged (name : List Nat)
  | complete (medCount : Nat)
  deriving DecidableEq, Repr

/-- The duplicate scan of the merge: `dup` after the loop over `j`, from
index `j` with `n` iterations left. -/
def dupLoop (meds : Nat → Medicine) (name : List Nat) : Nat → Nat → Bool
  | 0, _ => false
  | n + 1, j => if strcmp name (meds j).name = 0 then true else dupLoop meds name n (j + 1)

/-- The loop of `mergeBranchIntoMain` over the branch index `i` with `n`
iterations left; returns the state and the lines printed. -/
def mergeLoop : Nat → Nat → State → State × List MergeMsg
  | 0, _, s => (s, [])
  | n + 1, i, s =>
    if dupLoop s.meds (s.branchMeds i).name s.medCount 0 then
      let r := mergeLoop n (i + 1) s
      (r.1, MergeMsg.duplicateSkipped (s.branchMeds i).name :: r.2)
    else if s.medCount ≥ MAX_MEDICINES then (s, [MergeMsg.mainFull])
    else
      let r := mergeLoop n (i + 1)
        { s with meds := Function.update s.meds s.medCount (s.branchMeds i),
                 medCount := s.medCount + 1 }
      (r.1, MergeMsg.merged (s.branchMeds i).name :: r.2)

/-- Copies into main every branch record whose name main does not hold yet,
until main is full. -/
def mergeBranchIntoMain (s : State) : State × List MergeMsg :=
  if s.branchCount = 0 then (s, [MergeMsg.branchEmpty])
  else
    let r := mergeLoop s.branchCount 0 s
    (r.1, r.2 ++ [MergeMsg.complete r.1.medCount])

/-! ## The menu -/

/-- One pass of the menu loop: the operation chosen and what is typed for it.
The display, search, reminder and demo choices do not write the stores. -/
inductive Op where
  | populateSampleData
  | addMedicines (n : Int) (entries : List Entry)
  | displayAllMedicines
  | updateMedicineById (id choice : Int) (tok : List Nat) (x y : Int)
  | deleteMedicineById (id : Int)
  | searchByName (tok : List Nat)
  | searchByExpiry (month year : Int)
  | lowStockReminder (thresh : Int)
  | expiryReminderForYear (year : Int)
  | sortByExpirySoonest
  | sortByNameAsc
  | toggleAvailabilityById (id : Int)
  | mergeBranchIntoMain
  | branchAddSample
  | swapWithoutThirdVarDemo
  | bitwiseDemo

/-- The state after one pass of the menu loop. -/
def step (s : State) : Op → State
  | Op.populateSampleData => populateSampleData s
  | Op.addMedicines n entries => addMedicines s n entries
  | Op.updateMedicineById id choice tok x y => updateMedicineById s id choice tok x y
  | Op.deleteMedicineById id => deleteMedicineById s id
  | Op.sortByExpirySoonest => sortByExpirySoonest s
  | Op.sortByNameAsc => sortByNameAsc s
  | Op.toggleAvailabilityById id => (toggleAvailabilityById s id).1
  | Op.mergeBranchIntoMain => (mergeBranchIntoMain s).1
  | Op.branchAddSample => branchAddSample s
  | _ => s

/-- The state after a sequence of menu passes. -/
def run (s : State) (ops : List Op) : State := ops.foldl step s

/-! ## Devices for the proofs -/

/-- The swap test of `sortByExpirySoonest` on `meds[i]` and `meds[j]`. -/
def expirySwap (x y : Medicine) : Bool :=
  decide (y.expiryYear < x.expiryYear ∨
    (y.expiryYear = x.expiryYear ∧ y.expiryMonth < x.expiryMonth))

/-- The swap test of `sortByNameAsc` on `meds[i]` and `meds[j]`. -/
def nameSwap (x y : Medicine) : Bool := decide (strcmp x.name y.name > 0)

/-- The inner loop both sorts share, over an arbitrary swap test. -/
def exchInner (sw : Medicine → Medicine → Bool) (i : Nat) :
    Nat → Nat → (Nat → Medicine) → (Nat → Medicine)
  | 0, _, a => a
  | n + 1, j, a => exchInner sw i n (j + 1) (if sw (a i) (a j) then swapMedicines a i j else a)

/-- The outer loop both sorts share, over an arbitrary swap test. -/
def exchOuter (sw : Medicine → Medicine → Bool) (medCount : Nat) :
    Nat → Nat → (Nat → Medicine) → (Nat → Medicine)
  | 0, _, a => a
  | n + 1, i, a =>
    exchOuter sw medCount n (i + 1) (exchInner sw i (medCount - (i + 1)) (i + 1) a)

/-- Expiry order on records: `(year, month)` compared lexicographically. -/
def expiryLE (x y : Medicine) : Prop :=
  x.expiryYear < y.expiryYear ∨ (x.expiryYear = y.expiryYear ∧ x.expiryMonth ≤ y.expiryMonth)

instance (x y : Medicine) : Decidable (expiryLE x y) := by
  unfold expiryLE; infer_instance

/-- Name order on records: `strcmp` of the names is not positive. -/
def nameLE (x y : Medicine) : Prop := strcmp x.name y.name ≤ 0

instance (x y : Medicine) : Decidable (nameLE x y) := by
  unfold nameLE; infer_instance

/-- No two records of the main store share an id. -/
def uniqueIds (s : State) : Prop := ((live s).map (fun m => m.id)).Nodup

instance (s : State) : Decidable (uniqueIds s) := by
  unfold uniqueIds; infer_instance

/-- The merge as the specification words it, on the two record lists: branch
records are taken in branch order; one whose name already occurs in main at
that moment is skipped, any other is appended to main. -/
def mergeSpec : List Medicine → List Medicine → List Medicine
  | main, [] => main
  | main, b :: bs =>
    if b.name ∈ main.map (fun m => m.name) then mergeSpec main bs
    else mergeSpec (main ++ [b]) bs

/-- The report of the merge as the specification words it: one line per branch
record, `duplicateSkipped` for a skipped one and `merged` for an appended one. -/
def mergeSpecReport : List Medicine → List Medicine → List MergeMsg
  | _, [] => []
  | main, b :: bs =>
    if b.name ∈ main.map (fun m => m.name) then
      MergeMsg.duplicateSkipped b.name :: mergeSpecReport main bs
    else MergeMsg.merged b.name :: mergeSpecReport (main ++ [b]) bs

/-- A store with the single record named `X` and a branch with records named
`X` and `Y`. -/
def dupState : State :=
  { meds := Function.update (fun _ => zeroMedicine) 0
      (mkMed 1 "X" "A" 5 1 2025 1 FLAG_AVAILABLE),
    medCount := 1,
    branchMeds := Function.update (Function.update (fun _ => zeroMedicine) 0
      (mkMed 2 "X" "B" 6 2 2026 2 FLAG_AVAILABLE)) 1
      (mkMed 3 "Y" "C" 7 3 2027 3 0),
    branchCount := 2 }

/-- A main store one record short of capacity (ids 1..199, all named `M`) and
a branch with the records named `P` and `Q`. -/
def nearlyFullState : State :=
  { meds := fun k => { zeroMedicine with id := (k : Int) + 1, name := bytes "M" },
    medCount := 199,
    branchMeds := Function.update (Function.update (fun _ => zeroMedicine) 0
      (mkMed 301 "P" "B" 6 2 2026 2 FLAG_AVAILABLE)) 1
      (mkMed 302 "Q" "C" 7 3 2027 3 0),
    branchCount := 2 }

/-- A typed entry with id 201, the id of the first branch sample. -/
def clashEntry : Entry :=
  { id := 201, name := bytes "Aspirin", company := bytes "Acme", quantity := 9,
    expiryMonth := 3, expiryYear := 2027, price := 4, pres := 0 }

/-- The state after adding `clashEntry` to the empty store and loading the
branch samples. -/
def clashState : State := run init [Op.addMedicines 1 [clashEntry], Op.branchAddSample]

/-- The test `m->flags & FLAG_AVAILABLE` the display code makes. -/
def available (m : Medicine) : Bool := m.flags &&& FLAG_AVAILABLE ≠ 0

/-- The test `m->flags & FLAG_PRESCRIPTION` the display code makes. -/
def prescriptionRequired (m : Medicine) : Bool := m.flags &&& FLAG_PRESCRIPTION ≠ 0

/-- The two typed entries of the end-to-end scenario: id 101 named `A` with
quantity 120 expiring 11/2025, id 102 named `B` with quantity 0 expiring
4/2024. -/
def scenarioEntries : List Entry :=
  [{ id := 101, name := bytes "A", company := bytes "Co", quantity := 120,
     expiryMonth := 11, expiryYear := 2025, price := 5, pres := 0 },
   { id := 102, name := bytes "B", company := bytes "Co", quantity := 0,
     expiryMonth := 4, expiryYear := 2024, price := 8, pres := 1 }]

/-- The store after adding the two scenario entries to the empty store. -/
def scenarioState : State := addMedicines init 2 scenarioEntries

/-- The store right after `populateSampleData` on the initial state. -/
def sampleState : State := populateSampleData init

/-- A typed entry with the fresh id 7. -/
def sampleEntry : Entry :=
  { id := 7, name := bytes "Aspirin", company := bytes "Acme", quantity := 0,
    expiryMonth := 3, expiryYear := 2027, price := 4, pres := 1 }

/-- The record `updateMedicineById` leaves in the located slot, as a function
of the old record `m`, the value `readInt` returned for the choice, and what
was typed for the field. -/
def applyChoice (m : Medicine) (choice : Int) (tok : List Nat) (x y : Int) : Medicine :=
  if choice = 1 then { m with name := readString tok MAX_NAME_LEN }
  else if choice = 2 then { m with company := readString tok MAX_COMPANY_LEN }
  else if choice = 3 then
    let q := readInt x 0 1000000
    { m with quantity := q,
             flags := if q > 0 then m.flags ||| FLAG_AVAILABLE
                      else m.flags &&& (0xFFFFFFFF - FLAG_AVAILABLE) }
  else if choice = 4 then
    { m with expiryMonth := readInt x 1 12, expiryYear := readInt y 2020 9999 }
  else if choice = 5 then { m with price := readInt x 0 1000000 }
  else if choice = 6 then { m with flags := m.flags ^^^ FLAG_PRESCRIPTION }
  else m

/-- The sample store after the availability of id 104 (quantity 0) has been
toggled on by hand. -/
def toggledState : State := (toggleAvailabilityById sampleState 104).1

/-- No two records of the main store share a name. -/
def uniqueNames (s : State) : Prop := ((live s).map (fun m => m.name)).Nodup

instance (s : State) : Decidable (uniqueNames s) := by
  unfold uniqueNames; infer_instance

/-- A full main store (ids 1..200, pairwise distinct two-letter names `Aa`,
`Ab`, ..) and a branch with two records that are both named `P`. -/
def fullState : State :=
  { meds := fun k =>
      { zeroMedicine with id := (k : Int) + 1, name := [65 + k / 26, 97 + k % 26] },
    medCount := 200,
    branchMeds := Function.update (Function.update (fun _ => zeroMedicine) 0
      (mkMed 301 "P" "B" 6 2 2026 2 FLAG_AVAILABLE)) 1
      (mkMed 302 "P" "C" 7 3 2027 3 0),
    branchCount := 2 }

/-- A main store with the single record named `A` and a branch with records
named `P`, `Q`, `P` in that order. -/
def collideState : State :=
  { meds := Function.update (fun _ => zeroMedicine) 0
      (mkMed 1 "A" "Z" 5 1 2025 1 FLAG_AVAILABLE),
    medCount := 1,
    branchMeds := Function.update (Function.update (Function.update
      (fun _ => zeroMedicine) 0
      (mkMed 301 "P" "B" 6 2 2026 2 FLAG_AVAILABLE)) 1
      (mkMed 302 "Q" "C" 7 3 2027 3 0)) 2
      (mkMed 303 "P" "D" 8 4 2028 4 0),
    branchCount := 3 }

/-- A typed entry with id 101, which `sampleState` already holds. -/
def takenEntry : Entry :=
  { id := 101, name := bytes "Other", company := bytes "Acme", quantity := 3,
    expiryMonth := 1, expiryYear := 2030, price := 9, pres := 0 }

/-! ## Theorems: sorting -/

theorem swapMedicines_eq_comp (a : Nat → Medicine) (i j : Nat) :
    swapMedicines a i j = a ∘ (Equiv.swap i j) := by
  funext k
  simp only [swapMedicines, Function.comp, Function.update, Equiv.swap_apply_def]
  by_cases hkj : k = j
  · subst hkj
    by_cases hki : k = i
    · simp [hki]
    · simp [hki]
  · by_cases hki : k = i
    · subst hki
      simp [hkj]
    · simp [hki, hkj]

theorem expiryInner_eq (i n j : Nat) (a : Nat → Medicine) :
    expiryInner i n j a = exchInner expirySwap i n j a := by
  induction n generalizing j a with
  | zero => rfl
  | succ n ih =>
    simp only [expiryInner, exchInner, expirySwap, decide_eq_true_eq]
    exact ih _ _

theorem expiryOuter_eq (N n i : Nat) (a : Nat → Medicine) :
    expiryOuter N n i a = exchOuter expirySwap N n i a := by
  induction n generalizing i a with
  | zero => rfl
  | succ n ih =>
    simp only [expiryOuter, exchOuter, expiryInner_eq]
    exact ih _ _

theorem nameInner_eq (i n j : Nat) (a : Nat → Medicine) :
    nameInner i n j a = exchInner nameSwap i n j a := by
  induction n generalizing j a with
  | zero => rfl
  | succ n ih =>
    simp only [nameInner, exchInner, nameSwap, decide_eq_true_eq]
    exact ih _ _

theorem nameOuter_eq (N n i : Nat) (a : Nat → Medicine) :
    nameOuter N n i a = exchOuter nameSwap N n i a := by
  induction n generalizing i a with
  | zero => rfl
  | succ n ih =>
    simp only [nameOuter, exchOuter, nameInner_eq]
    exact ih _ _

/-- The inner loop rearranges slots `i` and `j .. j+n-1` only. -/
theorem exchInner_perm (sw : Medicine → Medicine → Bool) (i : Nat) :
    ∀ (n j : Nat) (a : Nat → Medicine), i < j →
      ∃ σ : Equiv.Perm Nat, exchInner sw i n j a = a ∘ σ ∧
        ∀ k, k ≠ i → (k < j ∨ j + n ≤ k) → σ k = k := by
  intro n
  induction n with
  | zero => intro j a _; exact ⟨Equiv.refl _, rfl, fun _ _ _ => rfl⟩
  | succ n ih =>
    intro j a hij
    simp only [exchInner]
    by_cases hsw : sw (a i) (a j) = true
    · obtain ⟨σ, hσ, hfix⟩ := ih (j + 1) (swapMedicines a i j) (by omega)
      refine ⟨σ.trans (Equiv.swap i j), ?_, ?_⟩
      · rw [if_pos hsw, hσ, swapMedicines_eq_comp]; rfl
      · intro k hki hk
        have h1 : σ k = k := hfix k hki (by omega)
        have hkj : k ≠ j := by omega
        simp [Equiv.trans_apply, h1, Equiv.swap_apply_of_ne_of_ne hki hkj]
    · obtain ⟨σ, hσ, hfix⟩ := ih (j + 1) a (by omega)
      refine ⟨σ, ?_, ?_⟩
      · rw [if_neg hsw, hσ]
      · intro k hki hk
        exact hfix k hki (by omega)

/-- After the inner loop, slot `i` holds a record that is least among the
slots the loop has passed. -/
theorem exchInner_least (sw : Medicine → Medicine → Bool) (le : Medicine → Medicine → Prop)
    (hsw : ∀ x y, sw x y = true ↔ ¬ le x y) (htot : ∀ x y, le x y ∨ le y x)
    (htr : ∀ x y z, le x y → le y z → le x z) (i : Nat) :
    ∀ (n j : Nat) (a : Nat → Medicine), i < j →
      (∀ m, i < m → m < j → le (a i) (a m)) →
      ∀ m, i < m → m < j + n → le (exchInner sw i n j a i) (exchInner sw i n j a m) := by
  intro n
  induction n with
  | zero => intro j a _ h m h1 h2; exact h m h1 (by omega)
  | succ n ih =>
    intro j a hij h m h1 h2
    simp only [exchInner]
    have hne : i ≠ j := by omega
    refine ih (j + 1) _ (by omega) ?_ m h1 (by omega)
    intro m' hm1 hm2
    by_cases hs : sw (a i) (a j) = true
    · have hji : le (a j) (a i) := by
        rcases htot (a i) (a j) with h' | h'
        · exact absurd h' ((hsw _ _).1 hs)
        · exact h'
      rw [if_pos hs]
      have hi : swapMedicines a i j i = a j := by
        simp [swapMedicines, Function.update, hne]
      rw [hi]
      by_cases hmj : m' = j
      · subst hmj
        have : swapMedicines a i m' m' = a i := by simp [swapMedicines, Function.update]
        rw [this]; exact hji
      · have hmi : m' ≠ i := by omega
        have : swapMedicines a i j m' = a m' := by
          simp [swapMedicines, Function.update, hmj, hmi]
        rw [this]
        exact htr _ _ _ hji (h m' hm1 (by omega))
    · rw [if_neg hs]
      by_cases hmj : m' = j
      · subst hmj
        by_contra hc
        exact hs ((hsw _ _).2 hc)
      · exact h m' hm1 (by omega)

/-- A permutation that fixes everything outside `lo .. hi-1` maps that range
into itself. -/
theorem perm_maps_range (σ : Equiv.Perm Nat) (lo hi : Nat)
    (hfix : ∀ k, (k < lo ∨ hi ≤ k) → σ k = k) (m : Nat) (h1 : lo ≤ m) (h2 : m < hi) :
    lo ≤ σ m ∧ σ m < hi := by
  by_contra hc
  have hout : σ m < lo ∨ hi ≤ σ m := by omega
  have h3 : σ (σ m) = σ m := hfix _ hout
  have h4 : σ m = m := σ.injective h3
  omega

/-- The outer loop leaves the slots sorted pairwise and only rearranges the
slots below `N`. -/
theorem exchOuter_spec (sw : Medicine → Medicine → Bool) (le : Medicine → Medicine → Prop)
    (hsw : ∀ x y, sw x y = true ↔ ¬ le x y) (htot : ∀ x y, le x y ∨ le y x)
    (htr : ∀ x y z, le x y → le y z → le x z) (N : Nat) :
    ∀ (n i : Nat) (a : Nat → Medicine), i + n ≤ N →
      (∀ k m, k < i → k < m → m < N → le (a k) (a m)) →
      (∀ k m, k < i + n → k < m → m < N →
          le (exchOuter sw N n i a k) (exchOuter sw N n i a m)) ∧
      ∃ σ : Equiv.Perm Nat, exchOuter sw N n i a = a ∘ σ ∧ ∀ k, N ≤ k → σ k = k := by
  intro n
  induction n with
  | zero =>
    intro i a _ h
    exact ⟨fun k m hk hkm hm => h k m (by omega) hkm hm, Equiv.refl _, rfl, fun _ _ => rfl⟩
  | succ n ih =>
    intro i a hin h
    simp only [exchOuter]
    obtain ⟨σ, hσ, hfix⟩ := exchInner_perm sw i (N - (i + 1)) (i + 1) a (by omega)
    have hleast := exchInner_least sw le hsw htot htr i (N - (i + 1)) (i + 1) a (by omega)
      (fun m h1 h2 => by omega)
    have hfix2 : ∀ k, (k < i ∨ N ≤ k) → σ k = k := by
      intro k hk
      apply hfix k (by omega)
      omega
    have hinv : ∀ k m, k < i + 1 → k < m → m < N →
        le (exchInner sw i (N - (i + 1)) (i + 1) a k)
           (exchInner sw i (N - (i + 1)) (i + 1) a m) := by
      intro k m hk hkm hm
      by_cases hki : k = i
      · subst hki
        exact hleast m hkm (by omega)
      · have hk' : k < i := by omega
        rw [hσ]
        simp only [Function.comp]
        rw [hfix2 k (Or.inl hk')]
        by_cases hmi : m < i
        · rw [hfix2 m (Or.inl hmi)]
          exact h k m hk' hkm hm
        · have hr := perm_maps_range σ i N hfix2 m (by omega) hm
          exact h k (σ m) hk' (by omega) hr.2
    obtain ⟨hsorted, τ, hτ, hτfix⟩ := ih (i + 1) _ (by omega) hinv
    refine ⟨fun k m hk hkm hm => hsorted k m (by omega) hkm hm, τ.trans σ, ?_, ?_⟩
    · rw [hτ, hσ]; rfl
    · intro k hk
      simp [Equiv.trans_apply, hτfix k hk, hfix2 k (Or.inr hk)]

/-- On slots already sorted pairwise the inner loop changes nothing. -/
theorem exchInner_sorted (sw : Medicine → Medicine → Bool) (le : Medicine → Medicine → Prop)
    (hsw : ∀ x y, sw x y = true ↔ ¬ le x y) (i : Nat) :
    ∀ (n j : Nat) (a : Nat → Medicine),
      (∀ m, j ≤ m → m < j + n → le (a i) (a m)) → exchInner sw i n j a = a := by
  intro n
  induction n with
  | zero => intro j a _; rfl
  | succ n ih =>
    intro j a h
    simp only [exchInner]
    have hno : ¬ sw (a i) (a j) = true := by
      intro hs
      exact (hsw _ _).1 hs (h j (le_refl _) (by omega))
    rw [if_neg hno]
    exact ih (j + 1) a (fun m h1 h2 => h m (by omega) (by omega))

/-- On slots already sorted pairwise the outer loop changes nothing. -/
theorem exchOuter_sorted (sw : Medicine → Medicine → Bool) (le : Medicine → Medicine → Prop)
    (hsw : ∀ x y, sw x y = true ↔ ¬ le x y) (N : Nat) (a : Nat → Medicine)
    (h : ∀ k m, k < m → m < N → le (a k) (a m)) :
    ∀ (n i : Nat), exchOuter sw N n i a = a := by
  intro n
  induction n with
  | zero => intro i; rfl
  | succ n ih =>
    intro i
    simp only [exchOuter]
    rw [exchInner_sorted sw le hsw i (N - (i + 1)) (i + 1) a
      (fun m h1 h2 => h i m (by omega) (by omega))]
    exact ih (i + 1)

/-- Rearranging the slots below `N` by a permutation permutes the list of
the first `N` records. -/
theorem map_comp_perm (a : Nat → Medicine) (σ : Equiv.Perm Nat) (N : Nat)
    (hfix : ∀ k, N ≤ k → σ k = k) :
    ((List.range N).map (a ∘ σ)).Perm ((List.range N).map a) := by
  have h1 : (List.range N).map (a ∘ σ) = ((List.range N).map σ).map a := by
    simp [List.map_map]
  rw [h1]
  apply List.Perm.map
  rw [List.perm_ext_iff_of_nodup ((List.nodup_range N).map σ.injective) (List.nodup_range N)]
  intro x
  simp only [List.mem_map, List.mem_range]
  constructor
  · rintro ⟨y, hy, rfl⟩
    exact (perm_maps_range σ 0 N (fun k hk => hfix k (by omega)) y (Nat.zero_le _) hy).2
  · intro hx
    refine ⟨σ.symm x, ?_, by simp⟩
    have hfix' : ∀ k, (k < 0 ∨ N ≤ k) → σ.symm k = k := by
      intro k hk
      have : σ k = k := hfix k (by omega)
      exact (Equiv.symm_apply_eq σ).2 this.symm
    exact (perm_maps_range σ.symm 0 N hfix' x (Nat.zero_le _) hx).2

theorem expirySwap_iff (x y : Medicine) : expirySwap x y = true ↔ ¬ expiryLE x y := by
  simp only [expirySwap, expiryLE, decide_eq_true_eq]
  omega

theorem expiryLE_total (x y : Medicine) : expiryLE x y ∨ expiryLE y x := by
  simp only [expiryLE]
  omega

theorem expiryLE_trans (x y z : Medicine) (h1 : expiryLE x y) (h2 : expiryLE y z) :
    expiryLE x z := by
  simp only [expiryLE] at *
  omega

theorem strcmp_total (x : List Nat) : ∀ y, strcmp x y ≤ 0 ∨ strcmp y x ≤ 0 := by
  induction x with
  | nil => intro y; cases y <;> simp [strcmp]
  | cons a as ih =>
    intro y
    cases y with
    | nil => simp [strcmp]
    | cons b bs =>
      simp only [strcmp]
      by_cases hab : a = b
      · subst hab
        simpa using ih bs
      · have hba : ¬ b = a := fun h => hab h.symm
        simp only [hab, hba, if_false]
        by_cases hlt : a < b
        · simp [hlt]
        · have : b < a := by omega
          simp [this]

theorem strcmp_trans (x : List Nat) :
    ∀ y z, strcmp x y ≤ 0 → strcmp y z ≤ 0 → strcmp x z ≤ 0 := by
  induction x with
  | nil => intro y z _ _; cases z <;> simp [strcmp]
  | cons a as ih =>
    intro y z h1 h2
    cases y with
    | nil => simp [strcmp] at h1
    | cons b bs =>
      cases z with
      | nil => simp [strcmp] at h2
      | cons c cs =>
        simp only [strcmp] at h1 h2 ⊢
        by_cases hab : a = b
        · subst hab
          simp only [if_true] at h1
          by_cases hac : a = c
          · subst hac
            simp only [if_true] at h2 ⊢
            exact ih bs cs h1 h2
          · simp only [hac, if_false] at h2 ⊢
            exact h2
        · simp only [hab, if_false] at h1
          have hlt : a < b := by
            by_contra hc
            simp [hc] at h1
          by_cases hbc : b = c
          · subst hbc
            simp [hab, hlt]
          · simp only [hbc, if_false] at h2
            have hlt2 : b < c := by
              by_contra hc
              simp [hc] at h2
            have hac : a ≠ c := by omega
            have hlt3 : a < c := by omega
            simp [hac, hlt3]

/-- The model of `strcmp` is negative exactly when the first byte string comes
before the second in the lexicographic order of byte values. -/
theorem strcmp_neg_iff_lex (x : List Nat) :
    ∀ y, strcmp x y < 0 ↔ List.Lex (fun a b => a < b) x y := by
  induction x with
  | nil =>
    intro y
    cases y with
    | nil => simp [strcmp]
    | cons b bs => simp [strcmp, List.Lex.nil]
  | cons a as ih =>
    intro y
    cases y with
    | nil => simp [strcmp]
    | cons b bs =>
      simp only [strcmp]
      by_cases hab : a = b
      · subst hab
        simp [ih bs, List.Lex.cons_iff]
      · simp only [hab, if_false]
        by_cases hlt : a < b
        · simp [hlt, List.Lex.rel hlt]
        · simp only [hlt, if_false]
          constructor
          · intro h; omega
          · intro h
            cases h with
            | cons h' => exact absurd rfl hab
            | rel h' => exact absurd h' hlt

theorem nameSwap_iff (x y : Medicine) : nameSwap x y = true ↔ ¬ nameLE x y := by
  simp only [nameSwap, nameLE, decide_eq_true_eq]
  omega

theorem nameLE_total (x y : Medicine) : nameLE x y ∨ nameLE y x :=
  strcmp_total x.name y.name

theorem nameLE_trans (x y z : Medicine) (h1 : nameLE x y) (h2 : nameLE y z) : nameLE x z :=
  strcmp_trans x.name y.name z.name h1 h2

theorem sortByExpirySoonest_eq (s : State) :
    sortByExpirySoonest s =
      { s with meds := exchOuter expirySwap s.medCount (s.medCount - 1) 0 s.meds } := by
  unfold sortByExpirySoonest
  by_cases h : s.medCount < 2
  · have h0 : s.medCount - 1 = 0 := by omega
    rw [if_pos h, h0]
    rfl
  · rw [if_neg h, expiryOuter_eq]

theorem sortByNameAsc_eq (s : State) :
    sortByNameAsc s =
      { s with meds := exchOuter nameSwap s.medCount (s.medCount - 1) 0 s.meds } := by
  unfold sortByNameAsc
  by_cases h : s.medCount < 2
  · have h0 : s.medCount - 1 = 0 := by omega
    rw [if_pos h, h0]
    rfl
  · rw [if_neg h, nameOuter_eq]

/-- The whole sort leaves the first `N` slots sorted pairwise. -/
theorem exchOuter_pairwise (sw : Medicine → Medicine → Bool) (le : Medicine → Medicine → Prop)
    (hsw : ∀ x y, sw x y = true ↔ ¬ le x y) (htot : ∀ x y, le x y ∨ le y x)
    (htr : ∀ x y z, le x y → le y z → le x z) (N : Nat) (a : Nat → Medicine) :
    ∀ k m, k < m → m < N → le (exchOuter sw N (N - 1) 0 a k) (exchOuter sw N (N - 1) 0 a m) := by
  intro k m hkm hm
  have h := (exchOuter_spec sw le hsw htot htr N (N - 1) 0 a (by omega)
    (fun k m hk _ _ => absurd hk (Nat.not_lt_zero k))).1
  exact h k m (by omega) hkm hm

/-- Slots sorted pairwise give a list whose adjacent records are in order. -/
theorem chain_of_pairwise (le : Medicine → Medicine → Prop) (N : Nat) (a : Nat → Medicine)
    (h : ∀ k m, k < m → m < N → le (a k) (a m)) :
    List.Chain' le ((List.range N).map a) := by
  apply List.Pairwise.chain'
  rw [List.pairwise_map]
  exact (List.pairwise_lt_range N).imp_of_mem
    (fun _ hm hlt => h _ _ hlt (List.mem_range.1 hm))

/-- C1: after `sortByExpirySoonest`, every adjacent pair of records of the main
store is in non-decreasing `(expiryYear, expiryMonth)` order, for every store. -/
theorem sortByExpirySoonest_adjacent (s : State) :
    List.Chain' expiryLE (live (sortByExpirySoonest s)) := by
  rw [sortByExpirySoonest_eq]
  exact chain_of_pairwise expiryLE s.medCount _
    (exchOuter_pairwise expirySwap expiryLE expirySwap_iff expiryLE_total expiryLE_trans
      s.medCount s.meds)

/-- C2: after `sortByNameAsc`, every adjacent pair of records of the main store
has names in non-decreasing `strcmp` order, for every store. -/
theorem sortByNameAsc_adjacent (s : State) :
    List.Chain' (fun x y => strcmp x.name y.name ≤ 0) (live (sortByNameAsc s)) := by
  rw [sortByNameAsc_eq]
  exact chain_of_pairwise nameLE s.medCount _
    (exchOuter_pairwise nameSwap nameLE nameSwap_iff nameLE_total nameLE_trans
      s.medCount s.meds)

/-- The outer loop only rearranges the slots below `N`, whatever the swap
test. -/
theorem exchOuter_perm (sw : Medicine → Medicine → Bool) (N : Nat) :
    ∀ (n i : Nat) (a : Nat → Medicine), i + n ≤ N →
      ∃ σ : Equiv.Perm Nat, exchOuter sw N n i a = a ∘ σ ∧ ∀ k, N ≤ k → σ k = k := by
  intro n
  induction n with
  | zero => intro i a _; exact ⟨Equiv.refl _, rfl, fun _ _ => rfl⟩
  | succ n ih =>
    intro i a hin
    simp only [exchOuter]
    obtain ⟨σ, hσ, hfix⟩ := exchInner_perm sw i (N - (i + 1)) (i + 1) a (by omega)
    obtain ⟨τ, hτ, hτfix⟩ := ih (i + 1) (exchInner sw i (N - (i + 1)) (i + 1) a) (by omega)
    refine ⟨τ.trans σ, ?_, ?_⟩
    · rw [hτ, hσ]; rfl
    · intro k hk
      have h1 : σ k = k := hfix k (by omega) (by omega)
      simp [Equiv.trans_apply, hτfix k hk, h1]

/-- The whole sort permutes the list of the first `N` records. -/
theorem exchOuter_live_perm (sw : Medicine → Medicine → Bool) (N : Nat) (a : Nat → Medicine) :
    ((List.range N).map (exchOuter sw N (N - 1) 0 a)).Perm ((List.range N).map a) := by
  obtain ⟨σ, hσ, hfix⟩ := exchOuter_perm sw N (N - 1) 0 a (by omega)
  rw [hσ]
  exact map_comp_perm a σ N hfix

/-- C3: both sorts only reorder: the main store after the sort is a
permutation of the main store before it and the count is the same. -/
theorem sorts_only_reorder (s : State) :
    ((live (sortByExpirySoonest s)).Perm (live s) ∧
      (sortByExpirySoonest s).medCount = s.medCount) ∧
    ((live (sortByNameAsc s)).Perm (live s) ∧
      (sortByNameAsc s).medCount = s.medCount) := by
  refine ⟨⟨?_, ?_⟩, ⟨?_, ?_⟩⟩
  · rw [sortByExpirySoonest_eq]
    exact exchOuter_live_perm expirySwap s.medCount s.meds
  · rw [sortByExpirySoonest_eq]
  · rw [sortByNameAsc_eq]
    exact exchOuter_live_perm nameSwap s.medCount s.meds
  · rw [sortByNameAsc_eq]

/-- C4: `sortByNameAsc` is idempotent: sorting a second time leaves the state
exactly as the first sort left it, for every store. -/
theorem sortByNameAsc_idempotent (s : State) :
    sortByNameAsc (sortByNameAsc s) = sortByNameAsc s := by
  have h := exchOuter_pairwise nameSwap nameLE nameSwap_iff nameLE_total nameLE_trans
    s.medCount s.meds
  rw [sortByNameAsc_eq s, sortByNameAsc_eq]
  simp only
  rw [exchOuter_sorted nameSwap nameLE nameSwap_iff s.medCount _ h]

/-! ## Theorems: lookup, add, delete -/

theorem readInt_bounds (x lo hi : Int) (h : lo ≤ hi) :
    lo ≤ readInt x lo hi ∧ readInt x lo hi ≤ hi := by
  unfold readInt
  simp only [if_pos h]
  split_ifs <;> omega

theorem readInt_of_mem (x lo hi : Int) (h1 : lo ≤ x) (h2 : x ≤ hi) : readInt x lo hi = x := by
  have h : lo ≤ hi := by omega
  simp only [readInt, if_pos h]
  split_ifs <;> omega

theorem readString_of_short (tok : List Nat) (maxlen : Nat) (h : tok.length < maxlen) :
    readString tok maxlen = tok := by
  unfold readString
  split_ifs
  · exact List.take_of_length_le (by omega)
  · rfl

/-- For an entry typed within the prompts' bounds the record built by the add
loop carries the typed values field by field. -/
theorem entryMedicine_of_valid (e : Entry)
    (hid : 1 ≤ e.id ∧ e.id ≤ 1000000) (hname : e.name.length < MAX_NAME_LEN)
    (hcompany : e.company.length < MAX_COMPANY_LEN)
    (hq : 0 ≤ e.quantity ∧ e.quantity ≤ 1000000)
    (hmonth : 1 ≤ e.expiryMonth ∧ e.expiryMonth ≤ 12)
    (hyear : 2020 ≤ e.expiryYear ∧ e.expiryYear ≤ 9999)
    (hprice : 0 ≤ e.price ∧ e.price ≤ 1000000) :
    (entryMedicine e).id = e.id ∧ (entryMedicine e).name = e.name ∧
    (entryMedicine e).company = e.company ∧ (entryMedicine e).quantity = e.quantity ∧
    (entryMedicine e).expiryMonth = e.expiryMonth ∧
    (entryMedicine e).expiryYear = e.expiryYear ∧ (entryMedicine e).price = e.price := by
  simp only [entryMedicine]
  exact ⟨readInt_of_mem _ _ _ hid.1 hid.2, readString_of_short _ _ hname,
    readString_of_short _ _ hcompany, readInt_of_mem _ _ _ hq.1 hq.2,
    readInt_of_mem _ _ _ hmonth.1 hmonth.2, readInt_of_mem _ _ _ hyear.1 hyear.2,
    readInt_of_mem _ _ _ hprice.1 hprice.2⟩

/-- What the id lookup loop returns: -1 when no slot it visits has the id,
else the first slot that has it. -/
theorem findIdLoop_spec (meds : Nat → Medicine) (id : Int) :
    ∀ (n i : Nat),
      (findIdLoop meds id n i = -1 ∧ ∀ k, i ≤ k → k < i + n → (meds k).id ≠ id) ∨
      (∃ p, i ≤ p ∧ p < i + n ∧ findIdLoop meds id n i = (p : Int) ∧ (meds p).id = id ∧
        ∀ k, i ≤ k → k < p → (meds k).id ≠ id) := by
  intro n
  induction n with
  | zero => intro i; exact Or.inl ⟨rfl, fun k h1 h2 => by omega⟩
  | succ n ih =>
    intro i
    simp only [findIdLoop]
    by_cases h : (meds i).id = id
    · exact Or.inr ⟨i, le_refl _, by omega, by rw [if_pos h], h, fun k h1 h2 => by omega⟩
    · rw [if_neg h]
      rcases ih (i + 1) with ⟨h1, h2⟩ | ⟨p, hp1, hp2, hp3, hp4, hp5⟩
      · refine Or.inl ⟨h1, fun k hk1 hk2 => ?_⟩
        by_cases hki : k = i
        · subst hki; exact h
        · exact h2 k (by omega) (by omega)
      · refine Or.inr ⟨p, by omega, by omega, hp3, hp4, fun k hk1 hk2 => ?_⟩
        by_cases hki : k = i
        · subst hki; exact h
        · exact hp5 k (by omega) hk2

theorem findIdLoop_none (meds : Nat → Medicine) (id : Int) (n i : Nat)
    (h : ∀ k, i ≤ k → k < i + n → (meds k).id ≠ id) : findIdLoop meds id n i = -1 := by
  rcases findIdLoop_spec meds id n i with ⟨h1, _⟩ | ⟨p, hp1, hp2, _, hp4, _⟩
  · exact h1
  · exact absurd hp4 (h p hp1 hp2)

theorem findIdLoop_first (meds : Nat → Medicine) (id : Int) (n i p : Nat)
    (h1 : i ≤ p) (h2 : p < i + n) (h3 : (meds p).id = id)
    (h4 : ∀ k, i ≤ k → k < p → (meds k).id ≠ id) : findIdLoop meds id n i = (p : Int) := by
  rcases findIdLoop_spec meds id n i with ⟨_, hn⟩ | ⟨q, hq1, hq2, hq3, hq4, hq5⟩
  · exact absurd h3 (hn p h1 h2)
  · have hqp : q = p := by
      by_contra hne
      rcases Nat.lt_or_gt_of_ne hne with hlt | hgt
      · exact h4 q hq1 hlt hq4
      · exact hq5 p h1 hgt h3
    rw [hq3, hqp]

theorem mem_live_iff (s : State) (m : Medicine) :
    m ∈ live s ↔ ∃ k, k < s.medCount ∧ s.meds k = m := by
  simp [live, List.mem_map, List.mem_range]

/-- Writing slot `N` (or beyond) does not change the first `N` records. -/
theorem map_update_range (a : Nat → Medicine) (N p : Nat) (v : Medicine) (h : N ≤ p) :
    (List.range N).map (Function.update a p v) = (List.range N).map a := by
  apply List.map_congr_left
  intro k hk
  have : k ≠ p := by
    have := List.mem_range.1 hk
    omega
  simp [Function.update, this]

/-- Storing a record in slot `medCount` and incrementing the count appends
the record to the main store. -/
theorem live_append (s : State) (v : Medicine) :
    live { s with meds := Function.update s.meds s.medCount v, medCount := s.medCount + 1 } =
      live s ++ [v] := by
  simp only [live, List.range_succ, List.map_append, List.map_cons, List.map_nil]
  rw [map_update_range _ _ _ _ (le_refl _)]
  simp

/-- C5: in a store below capacity, adding an entry whose id no record has
appends the record built from it (earlier records unchanged and in order, count
plus one), and the id lookup then returns the last slot, which holds that
record. -/
theorem add_then_find (s : State) (n : Int) (e : Entry)
    (hcap : s.medCount < MAX_MEDICINES)
    (hnew : ∀ m ∈ live s, m.id ≠ (entryMedicine e).id) :
    (addMedicines s n [e]).medCount = s.medCount + 1 ∧
    live (addMedicines s n [e]) = live s ++ [entryMedicine e] ∧
    findMedicineIndexById (addMedicines s n [e]) (entryMedicine e).id = (s.medCount : Int) ∧
    (addMedicines s n [e]).meds s.medCount = entryMedicine e := by
  have hid : (entryMedicine e).id = readInt e.id 1 1000000 := rfl
  have hnew' : ∀ k, k < s.medCount → (s.meds k).id ≠ readInt e.id 1 1000000 := by
    intro k hk
    rw [← hid]
    exact hnew _ ((mem_live_iff s _).2 ⟨k, hk, rfl⟩)
  have hfind : findMedicineIndexById s (readInt e.id 1 1000000) = -1 :=
    findIdLoop_none _ _ _ _ (fun k _ hk => hnew' k (by omega))
  have hn : (0 : Int) < readInt n 1 ((MAX_MEDICINES : Int) - s.medCount) := by
    have := (readInt_bounds n 1 ((MAX_MEDICINES : Int) - s.medCount) (by omega)).1
    omega
  have hadd : addMedicines s n [e] =
      { s with meds := Function.update s.meds s.medCount (entryMedicine e),
               medCount := s.medCount + 1 } := by
    unfold addMedicines
    simp only [addLoop]
    rw [if_pos hn, if_neg (by omega), hfind]
    simp
  rw [hadd]
  refine ⟨rfl, live_append s _, ?_, by simp⟩
  apply findIdLoop_first
  · exact Nat.zero_le _
  · simp
  · simp
  · intro k _ hk
    have hk' : k < s.medCount := hk
    have : k ≠ s.medCount := by omega
    simpa [Function.update, this, hid] using hnew' k hk'

theorem add_then_find_witness :
    sampleState.medCount < MAX_MEDICINES ∧
    (∀ m ∈ live sampleState, m.id ≠ (entryMedicine sampleEntry).id) ∧
    ((addMedicines sampleState 1 [sampleEntry]).medCount = sampleState.medCount + 1 ∧
     live (addMedicines sampleState 1 [sampleEntry]) =
       live sampleState ++ [entryMedicine sampleEntry] ∧
     findMedicineIndexById (addMedicines sampleState 1 [sampleEntry])
       (entryMedicine sampleEntry).id = (sampleState.medCount : Int) ∧
     (addMedicines sampleState 1 [sampleEntry]).meds sampleState.medCount =
       entryMedicine sampleEntry) :=
  ⟨by decide, by decide, add_then_find sampleState 1 sampleEntry (by decide) (by decide)⟩

/-- What the shifting loop leaves in each slot. -/
theorem shiftLoop_spec :
    ∀ (n i : Nat) (a : Nat → Medicine),
      (∀ k, k < i → shiftLoop n i a k = a k) ∧
      (∀ k, i ≤ k → k < i + n → shiftLoop n i a k = a (k + 1)) ∧
      (∀ k, i + n ≤ k → shiftLoop n i a k = a k) := by
  intro n
  induction n with
  | zero =>
    intro i a
    exact ⟨fun _ _ => rfl, fun k h1 h2 => by omega, fun _ _ => rfl⟩
  | succ n ih =>
    intro i a
    simp only [shiftLoop]
    obtain ⟨h1, h2, h3⟩ := ih (i + 1) (Function.update a i (a (i + 1)))
    refine ⟨fun k hk => ?_, fun k hk1 hk2 => ?_, fun k hk => ?_⟩
    · rw [h1 k (by omega)]
      have : k ≠ i := by omega
      simp [Function.update, this]
    · by_cases hki : k = i
      · subst hki
        rw [h1 k (by omega)]
        simp [Function.update]
      · rw [h2 k (by omega) (by omega)]
        have : k + 1 ≠ i := by omega
        simp [Function.update, this]
    · rw [h3 k (by omega)]
      have : k ≠ i := by omega
      simp [Function.update, this]

theorem map_range'_shift (f g : Nat → Medicine) :
    ∀ (n p : Nat), (∀ k, p ≤ k → k < p + n → f k = g (k + 1)) →
      (List.range' p n).map f = (List.range' (p + 1) n).map g := by
  intro n
  induction n with
  | zero => intro p _; rfl
  | succ n ih =>
    intro p h
    simp only [List.range'_succ, List.map_cons]
    rw [h p (le_refl _) (by omega), ih (p + 1) (fun k h1 h2 => h k (by omega) (by omega))]

theorem uniqueIds_index (s : State) (h : uniqueIds s) (i j : Nat)
    (hi : i < s.medCount) (hj : j < s.medCount) (hij : (s.meds i).id = (s.meds j).id) :
    i = j := by
  unfold uniqueIds live at h
  rw [List.map_map] at h
  exact (List.nodup_map_iff_inj_on (List.nodup_range _)).1 h i (List.mem_range.2 hi) j
    (List.mem_range.2 hj) hij

/-- Splitting the main store at slot `p`, and what the shifting loop with the
decremented count leaves: the same records without the one at `p`. -/
theorem shift_live (s : State) (p : Nat) (hp : p < s.medCount) :
    live s = (List.range p).map s.meds ++
      s.meds p :: (List.range' (p + 1) (s.medCount - 1 - p)).map s.meds ∧
    live { s with meds := shiftLoop (s.medCount - 1 - p) p s.meds,
                  medCount := s.medCount - 1 } =
      (List.range p).map s.meds ++ (List.range' (p + 1) (s.medCount - 1 - p)).map s.meds := by
  obtain ⟨h1, h2, _⟩ := shiftLoop_spec (s.medCount - 1 - p) p s.meds
  have hsplit : ∀ q M, List.range' 0 (q + M) = List.range' 0 q ++ List.range' q M := by
    intro q M
    have h := List.range'_append_1 0 q M
    rw [Nat.zero_add, Nat.add_comm M q] at h
    exact h.symm
  have hA : List.range s.medCount =
      List.range p ++ p :: List.range' (p + 1) (s.medCount - 1 - p) := by
    rw [List.range_eq_range', List.range_eq_range', ← List.range'_succ, ← hsplit]
    congr 1
    omega
  have hB : List.range (s.medCount - 1) =
      List.range p ++ List.range' p (s.medCount - 1 - p) := by
    rw [List.range_eq_range', List.range_eq_range', ← hsplit]
    congr 1
    omega
  constructor
  · simp only [live]
    rw [hA]
    simp only [List.map_append, List.map_cons]
  · simp only [live]
    rw [hB]
    simp only [List.map_append]
    congr 1
    · apply List.map_congr_left
      intro k hk
      exact h1 k (List.mem_range.1 hk)
    · exact map_range'_shift _ _ _ _ (fun k hk1 hk2 => h2 k hk1 hk2)

/-- When slot `p` is the first with the looked-up id, the delete shifts the
later slots down from `p` and decrements the count. -/
theorem delete_eq_of_first (s : State) (id : Int) (p : Nat) (hp : p < s.medCount)
    (hmid : (s.meds p).id = readInt id 1 1000000)
    (hfirst : ∀ k, k < p → (s.meds k).id ≠ readInt id 1 1000000) :
    deleteMedicineById s id =
      { s with meds := shiftLoop (s.medCount - 1 - p) p s.meds,
               medCount := s.medCount - 1 } := by
  have hfind : findMedicineIndexById s (readInt id 1 1000000) = (p : Int) :=
    findIdLoop_first _ _ _ _ p (Nat.zero_le _) (by omega) hmid
      (fun k _ hk => hfirst k hk)
  unfold deleteMedicineById
  rw [if_neg (by omega)]
  simp only [hfind]
  rw [if_neg (by omega)]
  simp

/-- C6: in a store with pairwise distinct ids, deleting an id that is present
removes exactly the record with that id (the others stay, in order), lowers
the count by one, and the id lookup then returns -1. -/
theorem delete_then_absent (s : State) (id : Int)
    (hdist : uniqueIds s)
    (hpres : ∃ m ∈ live s, m.id = readInt id 1 1000000) :
    (deleteMedicineById s id).medCount + 1 = s.medCount ∧
    live (deleteMedicineById s id) =
      (live s).filter (fun m => decide (m.id ≠ readInt id 1 1000000)) ∧
    findMedicineIndexById (deleteMedicineById s id) (readInt id 1 1000000) = -1 := by
  obtain ⟨m, hm, hmid⟩ := hpres
  obtain ⟨p, hp, rfl⟩ := (mem_live_iff s m).1 hm
  have hother : ∀ k, k < s.medCount → k ≠ p → (s.meds k).id ≠ readInt id 1 1000000 := by
    intro k hk hkp hc
    exact hkp (uniqueIds_index s hdist k p hk hp (hc.trans hmid.symm))
  obtain ⟨h1, h2, _⟩ := shiftLoop_spec (s.medCount - 1 - p) p s.meds
  obtain ⟨hold, hnew⟩ := shift_live s p hp
  rw [delete_eq_of_first s id p hp hmid (fun k hk => hother k (by omega) (by omega))]
  refine ⟨by simp only; omega, ?_, ?_⟩
  · rw [hnew, hold]
    simp only [List.filter_append]
    rw [List.filter_cons_of_neg (by simp [hmid])]
    rw [List.filter_eq_self.2, List.filter_eq_self.2]
    · intro x hx
      obtain ⟨k, hk, rfl⟩ := List.mem_map.1 hx
      have := List.mem_range'_1.1 hk
      simpa using hother k (by omega) (by omega)
    · intro x hx
      obtain ⟨k, hk, rfl⟩ := List.mem_map.1 hx
      have := List.mem_range.1 hk
      simpa using hother k (by omega) (by omega)
  · apply findIdLoop_none
    intro k _ hk
    simp only at hk ⊢
    by_cases hkp : k < p
    · rw [h1 k hkp]
      exact hother k (by omega) (by omega)
    · rw [h2 k (by omega) (by omega)]
      exact hother (k + 1) (by omega) (by omega)

theorem delete_then_absent_witness :
    uniqueIds sampleState ∧
    (∃ m ∈ live sampleState, m.id = readInt 103 1 1000000) ∧
    ((deleteMedicineById sampleState 103).medCount + 1 = sampleState.medCount ∧
     live (deleteMedicineById sampleState 103) =
       (live sampleState).filter (fun m => decide (m.id ≠ readInt 103 1 1000000)) ∧
     findMedicineIndexById (deleteMedicineById sampleState 103) (readInt 103 1 1000000) = -1) :=
  ⟨by decide, by decide, delete_then_absent sampleState 103 (by decide) (by decide)⟩

/-! ## Theorems: merge -/

theorem strcmp_eq_zero_iff (x : List Nat) : ∀ y, strcmp x y = 0 ↔ x = y := by
  induction x with
  | nil => intro y; cases y <;> simp [strcmp]
  | cons a as ih =>
    intro y
    cases y with
    | nil => simp [strcmp]
    | cons b bs =>
      simp only [strcmp]
      by_cases hab : a = b
      · subst hab
        simp [ih bs]
      · simp only [hab, if_false, List.cons.injEq, false_and, iff_false]
        by_cases hlt : a < b <;> simp [hlt]

/-- The duplicate scan answers whether a slot it visits has the name. -/
theorem dupLoop_spec (meds : Nat → Medicine) (name : List Nat) :
    ∀ (n j : Nat), dupLoop meds name n j = true ↔
      ∃ k, j ≤ k ∧ k < j + n ∧ (meds k).name = name := by
  intro n
  induction n with
  | zero => intro j; simp only [dupLoop]; constructor
            · intro h; cases h
            · rintro ⟨k, h1, h2, _⟩; omega
  | succ n ih =>
    intro j
    simp only [dupLoop]
    by_cases h : strcmp name (meds j).name = 0
    · rw [if_pos h]
      have := (strcmp_eq_zero_iff _ _).1 h
      exact ⟨fun _ => ⟨j, le_refl _, by omega, this.symm⟩, fun _ => rfl⟩
    · rw [if_neg h, ih (j + 1)]
      have hne : ¬ (meds j).name = name := fun hc => h ((strcmp_eq_zero_iff _ _).2 hc.symm)
      constructor
      · rintro ⟨k, h1, h2, h3⟩
        exact ⟨k, by omega, by omega, h3⟩
      · rintro ⟨k, h1, h2, h3⟩
        have : k ≠ j := fun hc => hne (hc ▸ h3)
        exact ⟨k, by omega, by omega, h3⟩

theorem dupLoop_iff_mem (s : State) (name : List Nat) :
    dupLoop s.meds name s.medCount 0 = true ↔ name ∈ (live s).map (fun m => m.name) := by
  rw [dupLoop_spec]
  simp only [live, List.mem_map, List.mem_range]
  constructor
  · rintro ⟨k, _, h2, h3⟩
    exact ⟨s.meds k, ⟨k, by omega, rfl⟩, h3⟩
  · rintro ⟨m, ⟨k, hk, rfl⟩, h3⟩
    exact ⟨k, Nat.zero_le _, by omega, h3⟩

theorem mergeSpec_length_le (bs : List Medicine) :
    ∀ main : List Medicine, main.length ≤ (mergeSpec main bs).length := by
  induction bs with
  | nil => intro main; simp [mergeSpec]
  | cons b bs ih =>
    intro main
    simp only [mergeSpec]
    split_ifs
    · exact ih main
    · have := ih (main ++ [b])
      simp only [List.length_append, List.length_singleton] at this
      omega

/-- The specified merge keeps main as a prefix and adds branch records in
branch order. -/
theorem mergeSpec_append (bs : List Medicine) :
    ∀ main : List Medicine, ∃ added, mergeSpec main bs = main ++ added ∧ added.Sublist bs := by
  induction bs with
  | nil => intro main; exact ⟨[], by simp [mergeSpec], List.Sublist.refl _⟩
  | cons b bs ih =>
    intro main
    simp only [mergeSpec]
    split_ifs
    · obtain ⟨added, h1, h2⟩ := ih main
      exact ⟨added, h1, h2.cons b⟩
    · obtain ⟨added, h1, h2⟩ := ih (main ++ [b])
      exact ⟨b :: added, by rw [h1]; simp, h2.cons₂ b⟩

/-- While main does not overflow, the merge loop computes the specified merge
and report and leaves the branch store alone. -/
theorem mergeLoop_spec :
    ∀ (n i : Nat) (s : State),
      (mergeSpec (live s) ((List.range' i n).map s.branchMeds)).length ≤ MAX_MEDICINES →
      live (mergeLoop n i s).1 = mergeSpec (live s) ((List.range' i n).map s.branchMeds) ∧
      (mergeLoop n i s).1.branchMeds = s.branchMeds ∧
      (mergeLoop n i s).1.branchCount = s.branchCount ∧
      (mergeLoop n i s).2 = mergeSpecReport (live s) ((List.range' i n).map s.branchMeds) := by
  intro n
  induction n with
  | zero => intro i s _; exact ⟨rfl, rfl, rfl, rfl⟩
  | succ n ih =>
    intro i s hlen
    simp only [List.range'_succ, List.map_cons, mergeSpec, mergeSpecReport] at hlen ⊢
    simp only [mergeLoop]
    by_cases hdup : dupLoop s.meds (s.branchMeds i).name s.medCount 0 = true
    · have hmem := (dupLoop_iff_mem s _).1 hdup
      rw [if_pos hdup]
      rw [if_pos hmem] at hlen ⊢
      rw [if_pos hmem]
      obtain ⟨h1, h2, h3, h4⟩ := ih (i + 1) s hlen
      exact ⟨h1, h2, h3, by simp only; rw [h4]⟩
    · have hmem : ¬ (s.branchMeds i).name ∈ (live s).map (fun m => m.name) :=
        fun hc => hdup ((dupLoop_iff_mem s _).2 hc)
      rw [if_neg hdup]
      rw [if_neg hmem] at hlen ⊢
      rw [if_neg hmem]
      have hroom : ¬ s.medCount ≥ MAX_MEDICINES := by
        have := mergeSpec_length_le ((List.range' (i + 1) n).map s.branchMeds)
          (live s ++ [s.branchMeds i])
        simp only [List.length_append, List.length_singleton, live, List.length_map,
          List.length_range] at this hlen
        omega
      rw [if_neg hroom]
      have hl := live_append s (s.branchMeds i)
      obtain ⟨h1, h2, h3, h4⟩ := ih (i + 1)
        { s with meds := Function.update s.meds s.medCount (s.branchMeds i),
                 medCount := s.medCount + 1 } (by rw [hl]; exact hlen)
      rw [hl] at h1 h4
      exact ⟨h1, h2, h3, by simp only; rw [h4]⟩

/-- C7: when main does not overflow, after `mergeBranchIntoMain` the main store
is its previous contents followed, in branch order, by the branch records whose
name did not occur in main when they were met; the others are reported as
skipped duplicates; the branch store is unchanged. -/
theorem merge_duplicate_suppression (s : State)
    (hcap : (mergeSpec (live s) (liveBranch s)).length ≤ MAX_MEDICINES) :
    live (mergeBranchIntoMain s).1 = mergeSpec (live s) (liveBranch s) ∧
    (mergeBranchIntoMain s).1.branchMeds = s.branchMeds ∧
    (mergeBranchIntoMain s).1.branchCount = s.branchCount ∧
    (mergeBranchIntoMain s).2 =
      (if s.branchCount = 0 then [MergeMsg.branchEmpty]
       else mergeSpecReport (live s) (liveBranch s) ++
         [MergeMsg.complete (mergeSpec (live s) (liveBranch s)).length]) := by
  unfold mergeBranchIntoMain
  by_cases h0 : s.branchCount = 0
  · simp [h0, liveBranch, mergeSpec]
  · simp only [liveBranch, List.range_eq_range'] at hcap ⊢
    obtain ⟨h1, h2, h3, h4⟩ := mergeLoop_spec s.branchCount 0 s hcap
    rw [if_neg h0, if_neg h0]
    refine ⟨h1, h2, h3, ?_⟩
    simp only
    rw [h4, ← h1]
    simp [live]

theorem merge_duplicate_suppression_witness :
    (mergeSpec (live dupState) (liveBranch dupState)).length ≤ MAX_MEDICINES ∧
    (live (mergeBranchIntoMain dupState).1 = mergeSpec (live dupState) (liveBranch dupState) ∧
     (mergeBranchIntoMain dupState).1.branchMeds = dupState.branchMeds ∧
     (mergeBranchIntoMain dupState).1.branchCount = dupState.branchCount ∧
     (mergeBranchIntoMain dupState).2 =
       (if dupState.branchCount = 0 then [MergeMsg.branchEmpty]
        else mergeSpecReport (live dupState) (liveBranch dupState) ++
          [MergeMsg.complete (mergeSpec (live dupState) (liveBranch dupState)).length])) ∧
    (live (mergeBranchIntoMain dupState).1).map (fun m => m.name) = [bytes "X", bytes "Y"] ∧
    (mergeBranchIntoMain dupState).2 =
      [MergeMsg.duplicateSkipped (bytes "X"), MergeMsg.merged (bytes "Y"),
       MergeMsg.complete 2] :=
  ⟨by decide, merge_duplicate_suppression dupState (by decide), by decide, by decide⟩

/-- C8: with one free slot in main and two branch records whose names differ
from each other and from every name in main, the merge appends the first
branch record only, main ends at capacity, and the full-store line is printed
exactly once. -/
theorem merge_capacity_stop (s : State)
    (hmain : s.medCount + 1 = MAX_MEDICINES)
    (hbranch : s.branchCount = 2)
    (hne : (s.branchMeds 0).name ≠ (s.branchMeds 1).name)
    (h0 : (s.branchMeds 0).name ∉ (live s).map (fun m => m.name))
    (h1 : (s.branchMeds 1).name ∉ (live s).map (fun m => m.name)) :
    live (mergeBranchIntoMain s).1 = live s ++ [s.branchMeds 0] ∧
    (mergeBranchIntoMain s).1.medCount = MAX_MEDICINES ∧
    (mergeBranchIntoMain s).2 =
      [MergeMsg.merged (s.branchMeds 0).name, MergeMsg.mainFull,
       MergeMsg.complete MAX_MEDICINES] ∧
    (mergeBranchIntoMain s).2.count MergeMsg.mainFull = 1 := by
  have hd0 : ¬ dupLoop s.meds (s.branchMeds 0).name s.medCount 0 = true :=
    fun hc => h0 ((dupLoop_iff_mem s _).1 hc)
  have hroom : ¬ s.medCount ≥ MAX_MEDICINES := by omega
  have hl := live_append s (s.branchMeds 0)
  have hd1 : ¬ dupLoop (Function.update s.meds s.medCount (s.branchMeds 0))
      (s.branchMeds 1).name (s.medCount + 1) 0 = true := by
    intro hc
    have := (dupLoop_iff_mem
      { s with meds := Function.update s.meds s.medCount (s.branchMeds 0),
               medCount := s.medCount + 1 } _).1 hc
    rw [hl, List.map_append, List.mem_append] at this
    rcases this with h | h
    · exact h1 h
    · simp only [List.map_cons, List.map_nil, List.mem_singleton] at h
      exact hne h.symm
  have hfull : s.medCount + 1 ≥ MAX_MEDICINES := by omega
  have hmerge : mergeBranchIntoMain s =
      ({ s with meds := Function.update s.meds s.medCount (s.branchMeds 0),
                medCount := s.medCount + 1 },
       [MergeMsg.merged (s.branchMeds 0).name, MergeMsg.mainFull,
        MergeMsg.complete (s.medCount + 1)]) := by
    have hloop : mergeLoop 2 0 s =
        ({ s with meds := Function.update s.meds s.medCount (s.branchMeds 0),
                  medCount := s.medCount + 1 },
         [MergeMsg.merged (s.branchMeds 0).name, MergeMsg.mainFull]) := by
      simp only [mergeLoop, if_neg hd0, if_neg hroom, if_neg hd1, if_pos hfull]
    have hcount : mergeLoop s.branchCount 0 s = mergeLoop 2 0 s := by rw [hbranch]
    unfold mergeBranchIntoMain
    rw [if_neg (by omega), hcount, hloop]
    rfl
  rw [hmerge]
  refine ⟨hl, hmain, by simp only; rw [hmain], ?_⟩
  simp [List.count_cons]

set_option maxRecDepth 100000 in
theorem merge_capacity_stop_witness :
    (nearlyFullState.medCount + 1 = MAX_MEDICINES ∧
     nearlyFullState.branchCount = 2 ∧
     (nearlyFullState.branchMeds 0).name ≠ (nearlyFullState.branchMeds 1).name ∧
     (nearlyFullState.branchMeds 0).name ∉ (live nearlyFullState).map (fun m => m.name) ∧
     (nearlyFullState.branchMeds 1).name ∉ (live nearlyFullState).map (fun m => m.name)) ∧
    (live (mergeBranchIntoMain nearlyFullState).1 =
       live nearlyFullState ++ [nearlyFullState.branchMeds 0] ∧
     (mergeBranchIntoMain nearlyFullState).1.medCount = MAX_MEDICINES ∧
     (mergeBranchIntoMain nearlyFullState).2 =
       [MergeMsg.merged (nearlyFullState.branchMeds 0).name, MergeMsg.mainFull,
        MergeMsg.complete MAX_MEDICINES] ∧
     (mergeBranchIntoMain nearlyFullState).2.count MergeMsg.mainFull = 1) :=
  ⟨⟨by decide, by decide, by decide, by decide, by decide⟩,
   merge_capacity_stop nearlyFullState (by decide) (by decide) (by decide) (by decide)
     (by decide)⟩

/-! ## Theorems: invariants -/

/-- C9 (the defect): the merge compares names only.  After adding a record with
id 201 to the empty store and loading the branch samples the ids are pairwise
distinct; after `mergeBranchIntoMain` two records of main have id 201. -/
theorem merge_breaks_uniqueIds :
    uniqueIds clashState ∧
    (live (mergeBranchIntoMain clashState).1).map (fun m => m.id) = [201, 201, 202, 203] ∧
    ¬ uniqueIds (mergeBranchIntoMain clashState).1 := by
  refine ⟨by decide, by decide, by decide⟩

theorem uniqueIds_update (s : State) (p : Nat) (v : Medicine) (hv : v.id = (s.meds p).id)
    (h : uniqueIds s) : uniqueIds { s with meds := Function.update s.meds p v } := by
  unfold uniqueIds live at h ⊢
  have : ((List.range s.medCount).map (Function.update s.meds p v)).map (fun m => m.id) =
      ((List.range s.medCount).map s.meds).map (fun m => m.id) := by
    rw [List.map_map, List.map_map]
    apply List.map_congr_left
    intro k _
    by_cases hk : k = p
    · subst hk; simp [Function.update, hv]
    · simp [Function.update, hk]
  simp only at this ⊢
  rw [this]
  exact h

theorem uniqueIds_of_perm (s t : State) (hp : (live t).Perm (live s)) (h : uniqueIds s) :
    uniqueIds t := by
  unfold uniqueIds at h ⊢
  exact ((hp.map _).nodup_iff).2 h

theorem addLoop_uniqueIds (n : Int) :
    ∀ (es : List Entry) (i : Int) (s : State), uniqueIds s → uniqueIds (addLoop n es i s) := by
  intro es
  induction es with
  | nil => intro i s h; exact h
  | cons e es ih =>
    intro i s h
    simp only [addLoop]
    split_ifs with h1 h2 h3
    · exact h
    · exact ih _ s h
    · apply ih
      have hfind : findMedicineIndexById s (readInt e.id 1 1000000) = -1 := by
        by_contra hc; exact h3 hc
      have hnone : ∀ k, k < s.medCount → (s.meds k).id ≠ readInt e.id 1 1000000 := by
        intro k hk
        rcases findIdLoop_spec s.meds (readInt e.id 1 1000000) s.medCount 0 with
          ⟨_, hn⟩ | ⟨p, _, _, hp3, _, _⟩
        · exact hn k (Nat.zero_le _) (by omega)
        · unfold findMedicineIndexById at hfind
          rw [hp3] at hfind
          omega
      unfold uniqueIds at h ⊢
      rw [live_append, List.map_append]
      refine List.nodup_append.2 ⟨h, List.nodup_singleton _, ?_⟩
      intro x hx1 hx2
      simp only [List.map_cons, List.map_nil, List.mem_singleton] at hx2
      obtain ⟨m, hm, rfl⟩ := List.mem_map.1 hx1
      obtain ⟨k, hk, rfl⟩ := (mem_live_iff s m).1 hm
      exact hnone k hk hx2
    · exact h

theorem deleteMedicineById_uniqueIds (s : State) (id : Int) (h : uniqueIds s) :
    uniqueIds (deleteMedicineById s id) := by
  rcases findIdLoop_spec s.meds (readInt id 1 1000000) s.medCount 0 with
    ⟨hn, _⟩ | ⟨p, _, hp2, _, hp4, hp5⟩
  · have hdel : deleteMedicineById s id = s := by
      unfold deleteMedicineById findMedicineIndexById
      simp only [hn]
      simp
    rw [hdel]
    exact h
  · rw [delete_eq_of_first s id p (by omega) hp4 (fun k hk => hp5 k (Nat.zero_le _) hk)]
    obtain ⟨hold, hnew⟩ := shift_live s p (by omega)
    unfold uniqueIds at h ⊢
    rw [hnew]
    rw [hold] at h
    exact h.sublist (((List.sublist_cons_self _ _).append_left _).map _)

theorem populateSampleData_uniqueIds (s : State) (h : uniqueIds s) :
    uniqueIds (populateSampleData s) := by
  unfold populateSampleData
  split_ifs
  · exact h
  · have hids : ∀ a : Nat → Medicine,
        ((List.range 5).map (Function.update (Function.update (Function.update
          (Function.update (Function.update a 0
            (mkMed 101 "Paracetamol" "HealCo" 120 11 2025 5 FLAG_AVAILABLE)) 1
            (mkMed 102 "Ibuprofen" "CureLabs" 60 4 2024 8
              (FLAG_AVAILABLE ||| FLAG_PRESCRIPTION))) 2
            (mkMed 103 "Cetirizine" "Allergix" 10 2 2024 3 FLAG_AVAILABLE)) 3
            (mkMed 104 "Amoxicillin" "BioPharm" 0 8 2023 12 0)) 4
            (mkMed 105 "VitaminC" "NutriPlus" 200 6 2026 2 FLAG_AVAILABLE))).map
          (fun m => m.id) = [101, 102, 103, 104, 105] := fun _ => rfl
    simp only [uniqueIds, live]
    rw [hids]
    decide

/-- Every menu operation other than the merge keeps the ids of the main store
pairwise distinct. -/
theorem step_uniqueIds_of_ne_merge (s : State) (op : Op) (h : uniqueIds s)
    (hop : op ≠ Op.mergeBranchIntoMain) : uniqueIds (step s op) := by
  cases op with
  | populateSampleData => exact populateSampleData_uniqueIds s h
  | addMedicines n entries => exact addLoop_uniqueIds _ entries 0 s h
  | updateMedicineById id choice tok x y =>
    simp only [step, updateMedicineById]
    split_ifs
    all_goals first
      | exact h
      | exact uniqueIds_update s _ _ rfl h
  | deleteMedicineById id => exact deleteMedicineById_uniqueIds s id h
  | sortByExpirySoonest =>
    refine uniqueIds_of_perm s (sortByExpirySoonest s) ?_ h
    rw [sortByExpirySoonest_eq]
    exact exchOuter_live_perm expirySwap s.medCount s.meds
  | sortByNameAsc =>
    refine uniqueIds_of_perm s (sortByNameAsc s) ?_ h
    rw [sortByNameAsc_eq]
    exact exchOuter_live_perm nameSwap s.medCount s.meds
  | toggleAvailabilityById id =>
    simp only [step, toggleAvailabilityById]
    split_ifs
    · exact h
    · exact h
    · exact uniqueIds_update s _ _ rfl h
  | mergeBranchIntoMain => exact absurd rfl hop
  | branchAddSample => exact h
  | displayAllMedicines => exact h
  | searchByName tok => exact h
  | searchByExpiry month year => exact h
  | lowStockReminder thresh => exact h
  | expiryReminderForYear year => exact h
  | swapWithoutThirdVarDemo => exact h
  | bitwiseDemo => exact h

theorem addLoop_counts (n : Int) :
    ∀ (es : List Entry) (i : Int) (s : State), s.medCount ≤ MAX_MEDICINES →
      (addLoop n es i s).medCount ≤ MAX_MEDICINES ∧
      (addLoop n es i s).branchCount = s.branchCount := by
  intro es
  induction es with
  | nil => intro i s h; exact ⟨h, rfl⟩
  | cons e es ih =>
    intro i s h
    simp only [addLoop]
    split_ifs with h1 h2 h3
    · exact ⟨h, rfl⟩
    · exact ih _ s h
    · exact ih _ _ (by simp only; omega)
    · exact ⟨h, rfl⟩

theorem mergeLoop_counts :
    ∀ (n i : Nat) (s : State), s.medCount ≤ MAX_MEDICINES →
      (mergeLoop n i s).1.medCount ≤ MAX_MEDICINES ∧
      (mergeLoop n i s).1.branchCount = s.branchCount := by
  intro n
  induction n with
  | zero => intro i s h; exact ⟨h, rfl⟩
  | succ n ih =>
    intro i s h
    simp only [mergeLoop]
    split_ifs with h1 h2
    · exact ih (i + 1) s h
    · exact ⟨h, rfl⟩
    · exact ih (i + 1) _ (by simp only; omega)

/-- Every menu pass keeps both counts within their array sizes. -/
theorem step_capacity (s : State) (op : Op)
    (h : s.medCount ≤ MAX_MEDICINES ∧ s.branchCount ≤ MAX_BRANCH) :
    (step s op).medCount ≤ MAX_MEDICINES ∧ (step s op).branchCount ≤ MAX_BRANCH := by
  obtain ⟨hm, hb⟩ := h
  cases op with
  | populateSampleData =>
    simp only [step, populateSampleData]
    split_ifs
    · exact ⟨hm, hb⟩
    · exact ⟨show (5 : Nat) ≤ MAX_MEDICINES by decide, hb⟩
  | addMedicines n entries =>
    simp only [step, addMedicines]
    obtain ⟨h1, h2⟩ := addLoop_counts (readInt n 1 ((MAX_MEDICINES : Int) - s.medCount))
      entries 0 s hm
    exact ⟨h1, by rw [h2]; exact hb⟩
  | updateMedicineById id choice tok x y =>
    simp only [step, updateMedicineById]
    split_ifs <;> exact ⟨hm, hb⟩
  | deleteMedicineById id =>
    simp only [step, deleteMedicineById]
    split_ifs
    · exact ⟨hm, hb⟩
    · exact ⟨hm, hb⟩
    · exact ⟨by simp only; omega, hb⟩
  | sortByExpirySoonest =>
    simp only [step, sortByExpirySoonest]
    split_ifs <;> exact ⟨hm, hb⟩
  | sortByNameAsc =>
    simp only [step, sortByNameAsc]
    split_ifs <;> exact ⟨hm, hb⟩
  | toggleAvailabilityById id =>
    simp only [step, toggleAvailabilityById]
    split_ifs <;> exact ⟨hm, hb⟩
  | mergeBranchIntoMain =>
    simp only [step, mergeBranchIntoMain]
    split_ifs
    · exact ⟨hm, hb⟩
    · obtain ⟨h1, h2⟩ := mergeLoop_counts s.branchCount 0 s hm
      exact ⟨h1, by simp only; rw [h2]; exact hb⟩
  | branchAddSample =>
    simp only [step, branchAddSample]
    exact ⟨hm, show (3 : Nat) ≤ MAX_BRANCH by decide⟩
  | displayAllMedicines => exact ⟨hm, hb⟩
  | searchByName tok => exact ⟨hm, hb⟩
  | searchByExpiry month year => exact ⟨hm, hb⟩
  | lowStockReminder thresh => exact ⟨hm, hb⟩
  | expiryReminderForYear year => exact ⟨hm, hb⟩
  | swapWithoutThirdVarDemo => exact ⟨hm, hb⟩
  | bitwiseDemo => exact ⟨hm, hb⟩

theorem run_capacity (ops : List Op) :
    ∀ s : State, (s.medCount ≤ MAX_MEDICINES ∧ s.branchCount ≤ MAX_BRANCH) →
      (run s ops).medCount ≤ MAX_MEDICINES ∧ (run s ops).branchCount ≤ MAX_BRANCH := by
  induction ops with
  | nil => intro s h; exact h
  | cons op ops ih =>
    intro s h
    simp only [run, List.foldl_cons]
    exact ih (step s op) (step_capacity s op h)

/-- C10: starting from the empty stores, after any sequence of menu operations
the main count is at most 200 and the branch count at most 50. -/
theorem capacity_invariant (ops : List Op) :
    (run init ops).medCount ≤ 200 ∧ (run init ops).branchCount ≤ 50 :=
  run_capacity ops init ⟨by decide, by decide⟩

/-! ## Theorems: failure paths, flags, searches, update frame -/

/-- An id some record of the main store has is found at the first slot that
has it. -/
theorem find_of_present (s : State) (id : Int) (h : ∃ m ∈ live s, m.id = id) :
    ∃ p, p < s.medCount ∧ findMedicineIndexById s id = (p : Int) ∧ (s.meds p).id = id ∧
      ∀ k, k < p → (s.meds k).id ≠ id := by
  obtain ⟨m, hm, hid⟩ := h
  obtain ⟨q, hq, rfl⟩ := (mem_live_iff s m).1 hm
  rcases findIdLoop_spec s.meds id s.medCount 0 with ⟨_, hn⟩ | ⟨p, _, hp2, hp3, hp4, hp5⟩
  · exact absurd hid (hn q (Nat.zero_le _) (by omega))
  · exact ⟨p, by omega, hp3, hp4, fun k hk => hp5 k (Nat.zero_le _) hk⟩

/-- An id no record of the main store has is not found. -/
theorem find_of_absent (s : State) (id : Int) (h : ∀ m ∈ live s, m.id ≠ id) :
    findMedicineIndexById s id = -1 :=
  findIdLoop_none _ _ _ _ (fun k _ hk => h _ ((mem_live_iff s _).2 ⟨k, by omega, rfl⟩))

/-- The add loop leaves the state alone when every typed id already exists. -/
theorem addLoop_all_present (n : Int) :
    ∀ (es : List Entry) (i : Int) (s : State),
      (∀ e ∈ es, ∃ m ∈ live s, m.id = readInt e.id 1 1000000) → addLoop n es i s = s := by
  intro es
  induction es with
  | nil => intro i s _; rfl
  | cons e es ih =>
    intro i s h
    obtain ⟨p, _, hp, _, _⟩ := find_of_present s _ (h e (List.mem_cons_self _ _))
    simp only [addLoop]
    split_ifs with h1 h2 h3
    · rfl
    · exact ih _ s (fun e' he' => h e' (List.mem_cons_of_mem _ he'))
    · exfalso
      apply h3
      rw [hp]
      omega
    · rfl

/-- C11: a failed operation leaves the store as it was: an add whose typed id
already exists, and an update, delete or availability toggle whose typed id no
record has, return the state unchanged. -/
theorem no_partial_mutation (s : State) (n : Int) (e : Entry) (id choice : Int)
    (tok : List Nat) (x y : Int)
    (hdup : ∃ m ∈ live s, m.id = readInt e.id 1 1000000)
    (habs : ∀ m ∈ live s, m.id ≠ readInt id 1 1000000) :
    addMedicines s n [e] = s ∧
    updateMedicineById s id choice tok x y = s ∧
    deleteMedicineById s id = s ∧
    (toggleAvailabilityById s id).1 = s := by
  have hfind := find_of_absent s _ habs
  refine ⟨?_, ?_, ?_, ?_⟩
  · unfold addMedicines
    apply addLoop_all_present
    intro e' he'
    rw [List.mem_singleton] at he'
    subst he'
    exact hdup
  · unfold updateMedicineById
    split_ifs with h0
    · rfl
    · simp only [hfind, if_true]
  · unfold deleteMedicineById
    split_ifs with h0
    · rfl
    · simp only [hfind, if_true]
  · unfold toggleAvailabilityById
    split_ifs with h0
    · rfl
    · simp only [hfind, if_true]

theorem no_partial_mutation_witness :
    (∃ m ∈ live sampleState, m.id = readInt takenEntry.id 1 1000000) ∧
    (∀ m ∈ live sampleState, m.id ≠ readInt 7 1 1000000) ∧
    (addMedicines sampleState 1 [takenEntry] = sampleState ∧
     updateMedicineById sampleState 7 3 [] 5 0 = sampleState ∧
     deleteMedicineById sampleState 7 = sampleState ∧
     (toggleAvailabilityById sampleState 7).1 = sampleState) :=
  ⟨by decide, by decide,
   no_partial_mutation sampleState 1 takenEntry 7 3 [] 5 0 (by decide) (by decide)⟩

theorem and_one_cases (f : Nat) : f &&& 1 = 0 ∨ f &&& 1 = 1 := by
  rw [Nat.and_one_is_mod]; omega

theorem or_avail_and_avail (f : Nat) : (f ||| FLAG_AVAILABLE) &&& FLAG_AVAILABLE ≠ 0 := by
  simp only [FLAG_AVAILABLE]
  rw [Nat.and_distrib_right]
  rcases and_one_cases f with h | h <;> simp [h]

theorem or_avail_and_presc (f : Nat) :
    (f ||| FLAG_AVAILABLE) &&& FLAG_PRESCRIPTION = f &&& FLAG_PRESCRIPTION := by
  simp only [FLAG_AVAILABLE, FLAG_PRESCRIPTION]
  rw [Nat.and_distrib_right]
  simp

theorem mask_avail_and_avail (f : Nat) :
    (f &&& (0xFFFFFFFF - FLAG_AVAILABLE)) &&& FLAG_AVAILABLE = 0 := by
  simp only [FLAG_AVAILABLE]
  rw [Nat.and_assoc]
  simp

theorem mask_avail_and_presc (f : Nat) :
    (f &&& (0xFFFFFFFF - FLAG_AVAILABLE)) &&& FLAG_PRESCRIPTION = f &&& FLAG_PRESCRIPTION := by
  simp only [FLAG_AVAILABLE, FLAG_PRESCRIPTION]
  have h : ((0xFFFFFFFF - 1 : Nat) &&& 2) = 2 := by decide
  rw [Nat.and_assoc, h]

theorem xor_avail_and_presc (f : Nat) :
    (f ^^^ FLAG_AVAILABLE) &&& FLAG_PRESCRIPTION = f &&& FLAG_PRESCRIPTION := by
  simp only [FLAG_AVAILABLE, FLAG_PRESCRIPTION]
  rw [Nat.and_xor_distrib_right]
  simp

theorem xor_presc_and_avail (f : Nat) :
    (f ^^^ FLAG_PRESCRIPTION) &&& FLAG_AVAILABLE = f &&& FLAG_AVAILABLE := by
  simp only [FLAG_AVAILABLE, FLAG_PRESCRIPTION]
  rw [Nat.and_xor_distrib_right]
  simp

theorem xor_avail_and_avail (f : Nat) :
    ((f ^^^ FLAG_AVAILABLE) &&& FLAG_AVAILABLE ≠ 0) ↔ f &&& FLAG_AVAILABLE = 0 := by
  simp only [FLAG_AVAILABLE]
  rw [Nat.and_xor_distrib_right]
  rcases and_one_cases f with h | h <;> simp [h]

theorem and_two_cases (f : Nat) : f &&& 2 = 0 ∨ f &&& 2 = 2 := by
  have h : f &&& 2 ≤ 2 := Nat.and_le_right
  have h1 : f &&& 2 ≠ 1 := by
    intro hc
    have : (f &&& 2) &&& 1 = 1 := by rw [hc]; decide
    rw [Nat.and_assoc] at this
    simp at this
  omega

theorem xor_presc_and_presc (f : Nat) :
    ((f ^^^ FLAG_PRESCRIPTION) &&& FLAG_PRESCRIPTION ≠ 0) ↔ f &&& FLAG_PRESCRIPTION = 0 := by
  simp only [FLAG_PRESCRIPTION]
  rw [Nat.and_xor_distrib_right]
  rcases and_two_cases f with h | h <;> simp [h]

theorem xor_xor_self (f g : Nat) : (f ^^^ g) ^^^ g = f := by
  rw [Nat.xor_assoc, Nat.xor_self, Nat.xor_zero]


/-- When the typed id is found in slot `p`, the update rewrites slot `p` with
the record the choice yields and touches nothing else. -/
theorem update_eq_of_find (s : State) (id choice : Int) (tok : List Nat) (x y : Int) (p : Nat)
    (hp : findMedicineIndexById s (readInt id 1 1000000) = (p : Int)) (hpos : s.medCount ≠ 0) :
    updateMedicineById s id choice tok x y =
      { s with
        meds := Function.update s.meds p (applyChoice (s.meds p) (readInt choice 1 7) tok x y) } := by
  unfold updateMedicineById
  rw [if_neg hpos]
  simp only [hp]
  rw [if_neg (by omega)]
  simp only [Int.toNat_ofNat, applyChoice]

/-- C12: updating the quantity of the record located by id to `q` stores `q`
and leaves the record available exactly when `q > 0`, whatever its flags were;
the prescription flag is unchanged. -/
theorem quantity_update_rederives (s : State) (id x y : Int) (tok : List Nat)
    (hpres : ∃ m ∈ live s, m.id = readInt id 1 1000000) :
    ((updateMedicineById s id 3 tok x y).meds
        (findMedicineIndexById s (readInt id 1 1000000)).toNat).quantity =
      readInt x 0 1000000 ∧
    (available ((updateMedicineById s id 3 tok x y).meds
        (findMedicineIndexById s (readInt id 1 1000000)).toNat) = true ↔
      readInt x 0 1000000 > 0) ∧
    prescriptionRequired ((updateMedicineById s id 3 tok x y).meds
        (findMedicineIndexById s (readInt id 1 1000000)).toNat) =
      prescriptionRequired (s.meds (findMedicineIndexById s (readInt id 1 1000000)).toNat) := by
  obtain ⟨p, hp, hfind, _, _⟩ := find_of_present s _ hpres
  rw [update_eq_of_find s id 3 tok x y p hfind (by omega), hfind]
  have hc : readInt 3 1 7 = 3 := by decide
  simp only [Int.toNat_ofNat, Function.update_same, hc, applyChoice]
  norm_num only [if_true, if_false]
  by_cases hq : readInt x 0 1000000 > 0
  · simp only [if_pos hq, available, prescriptionRequired, or_avail_and_presc]
    refine ⟨trivial, ?_, trivial⟩
    simp [hq, or_avail_and_avail]
  · simp only [if_neg hq, available, prescriptionRequired, mask_avail_and_presc,
      mask_avail_and_avail]
    simp [hq]

theorem quantity_update_rederives_witness :
    (∃ m ∈ live toggledState, m.id = readInt 104 1 1000000) ∧
    (((updateMedicineById toggledState 104 3 [] 0 0).meds
        (findMedicineIndexById toggledState (readInt 104 1 1000000)).toNat).quantity =
      readInt 0 0 1000000 ∧
    (available ((updateMedicineById toggledState 104 3 [] 0 0).meds
        (findMedicineIndexById toggledState (readInt 104 1 1000000)).toNat) = true ↔
      readInt 0 0 1000000 > 0) ∧
    prescriptionRequired ((updateMedicineById toggledState 104 3 [] 0 0).meds
        (findMedicineIndexById toggledState (readInt 104 1 1000000)).toNat) =
      prescriptionRequired
        (toggledState.meds (findMedicineIndexById toggledState (readInt 104 1 1000000)).toNat)) ∧
    available (toggledState.meds 3) = true ∧
    available ((updateMedicineById toggledState 104 3 [] 0 0).meds 3) = false :=
  ⟨by decide, quantity_update_rederives toggledState 104 0 0 [] (by decide), by decide,
   by decide⟩

/-- In a store below capacity, one typed entry with a fresh id is stored in
slot `medCount` and the count goes up by one. -/
theorem addMedicines_fresh (s : State) (n : Int) (e : Entry)
    (hcap : s.medCount < MAX_MEDICINES)
    (hnew : ∀ m ∈ live s, m.id ≠ (entryMedicine e).id) :
    addMedicines s n [e] =
      { s with meds := Function.update s.meds s.medCount (entryMedicine e),
               medCount := s.medCount + 1 } := by
  have hfind : findMedicineIndexById s (readInt e.id 1 1000000) = -1 :=
    find_of_absent s _ hnew
  have hn : (0 : Int) < readInt n 1 ((MAX_MEDICINES : Int) - s.medCount) := by
    have := (readInt_bounds n 1 ((MAX_MEDICINES : Int) - s.medCount) (by omega)).1
    omega
  unfold addMedicines
  simp only [addLoop]
  rw [if_pos hn, if_neg (by omega), hfind]
  simp

/-- C13: the record an add stores has the available flag exactly when its
quantity is positive, the prescription flag exactly when the typed answer is
nonzero, and no other flag bit. -/
theorem add_time_flags (s : State) (n : Int) (e : Entry)
    (hcap : s.medCount < MAX_MEDICINES)
    (hnew : ∀ m ∈ live s, m.id ≠ (entryMedicine e).id) :
    ((addMedicines s n [e]).meds s.medCount).quantity = readInt e.quantity 0 1000000 ∧
    (available ((addMedicines s n [e]).meds s.medCount) = true ↔
      ((addMedicines s n [e]).meds s.medCount).quantity > 0) ∧
    (prescriptionRequired ((addMedicines s n [e]).meds s.medCount) = true ↔ e.pres ≠ 0) ∧
    ((addMedicines s n [e]).meds s.medCount).flags &&& (FLAG_AVAILABLE ||| FLAG_PRESCRIPTION) =
      ((addMedicines s n [e]).meds s.medCount).flags := by
  rw [addMedicines_fresh s n e hcap hnew]
  simp only [Function.update_same, entryMedicine, available, prescriptionRequired]
  by_cases hq : readInt e.quantity 0 1000000 > 0 <;> by_cases hp : e.pres = 0 <;>
    simp only [hq, hp, FLAG_AVAILABLE, FLAG_PRESCRIPTION, if_true, if_false, ne_eq,
      not_true_eq_false, not_false_eq_true] <;> decide

theorem add_time_flags_witness :
    sampleState.medCount < MAX_MEDICINES ∧
    (∀ m ∈ live sampleState, m.id ≠ (entryMedicine sampleEntry).id) ∧
    (((addMedicines sampleState 1 [sampleEntry]).meds sampleState.medCount).quantity =
       readInt sampleEntry.quantity 0 1000000 ∧
     (available ((addMedicines sampleState 1 [sampleEntry]).meds sampleState.medCount) = true ↔
       ((addMedicines sampleState 1 [sampleEntry]).meds sampleState.medCount).quantity > 0) ∧
     (prescriptionRequired
         ((addMedicines sampleState 1 [sampleEntry]).meds sampleState.medCount) = true ↔
       sampleEntry.pres ≠ 0) ∧
     ((addMedicines sampleState 1 [sampleEntry]).meds sampleState.medCount).flags &&&
         (FLAG_AVAILABLE ||| FLAG_PRESCRIPTION) =
       ((addMedicines sampleState 1 [sampleEntry]).meds sampleState.medCount).flags) ∧
    sampleEntry.quantity = 0 ∧
    available ((addMedicines sampleState 1 [sampleEntry]).meds sampleState.medCount) = false :=
  ⟨by decide, by decide, add_time_flags sampleState 1 sampleEntry (by decide) (by decide),
   by decide, by decide⟩

/-- The id lookup sees the ids only. -/
theorem findIdLoop_congr (a b : Nat → Medicine) (id : Int) (h : ∀ k, (a k).id = (b k).id) :
    ∀ (n i : Nat), findIdLoop a id n i = findIdLoop b id n i := by
  intro n
  induction n with
  | zero => intro i; rfl
  | succ n ih =>
    intro i
    simp only [findIdLoop, h i, ih (i + 1)]

theorem decide_xor_avail (f : Nat) :
    decide ((f ^^^ FLAG_AVAILABLE) &&& FLAG_AVAILABLE ≠ 0) =
      !decide (f &&& FLAG_AVAILABLE ≠ 0) := by
  by_cases h : f &&& FLAG_AVAILABLE = 0
  · have h1 := (xor_avail_and_avail f).2 h
    rw [decide_eq_true h1, decide_eq_false (fun hc => hc h)]
    rfl
  · have h1 : ¬ ((f ^^^ FLAG_AVAILABLE) &&& FLAG_AVAILABLE ≠ 0) :=
      fun hc => h ((xor_avail_and_avail f).1 hc)
    rw [decide_eq_false h1, decide_eq_true h]
    rfl

/-- When the typed id is found in slot `p`, the toggle flips bit 0 of the flags
in slot `p`, reports the new bit, and touches nothing else. -/
theorem toggle_eq_of_find (s : State) (id : Int) (p : Nat)
    (hp : findMedicineIndexById s (readInt id 1 1000000) = (p : Int)) (hpos : s.medCount ≠ 0) :
    toggleAvailabilityById s id =
      ({ s with
         meds := Function.update s.meds p
           { s.meds p with flags := (s.meds p).flags ^^^ FLAG_AVAILABLE } },
       ToggleMsg.toggled (readInt id 1 1000000)
         (decide (((s.meds p).flags ^^^ FLAG_AVAILABLE) &&& FLAG_AVAILABLE ≠ 0))) := by
  unfold toggleAvailabilityById
  rw [if_neg hpos]
  simp only [hp]
  rw [if_neg (by omega)]
  simp only [Int.toNat_ofNat]

/-- C14: for a present id the toggle negates the available flag of the located
record whatever its quantity, reports the flag it stored, leaves the
prescription flag, every other field and every other record as they were, and
a second toggle restores the original state. -/
theorem toggle_flips_available (s : State) (id : Int)
    (hpres : ∃ m ∈ live s, m.id = readInt id 1 1000000) :
    available ((toggleAvailabilityById s id).1.meds
        (findMedicineIndexById s (readInt id 1 1000000)).toNat) =
      !available (s.meds (findMedicineIndexById s (readInt id 1 1000000)).toNat) ∧
    (toggleAvailabilityById s id).2 =
      ToggleMsg.toggled (readInt id 1 1000000)
        (available ((toggleAvailabilityById s id).1.meds
          (findMedicineIndexById s (readInt id 1 1000000)).toNat)) ∧
    (toggleAvailabilityById s id).1.meds
        (findMedicineIndexById s (readInt id 1 1000000)).toNat =
      { s.meds (findMedicineIndexById s (readInt id 1 1000000)).toNat with
        flags := (s.meds (findMedicineIndexById s (readInt id 1 1000000)).toNat).flags ^^^
          FLAG_AVAILABLE } ∧
    prescriptionRequired ((toggleAvailabilityById s id).1.meds
        (findMedicineIndexById s (readInt id 1 1000000)).toNat) =
      prescriptionRequired (s.meds (findMedicineIndexById s (readInt id 1 1000000)).toNat) ∧
    (∀ k, k ≠ (findMedicineIndexById s (readInt id 1 1000000)).toNat →
      (toggleAvailabilityById s id).1.meds k = s.meds k) ∧
    (toggleAvailabilityById s id).1.medCount = s.medCount ∧
    (toggleAvailabilityById s id).1.branchMeds = s.branchMeds ∧
    (toggleAvailabilityById s id).1.branchCount = s.branchCount ∧
    (toggleAvailabilityById (toggleAvailabilityById s id).1 id).1 = s := by
  obtain ⟨p, hp, hfind, _, _⟩ := find_of_present s _ hpres
  have hpos : s.medCount ≠ 0 := by omega
  have ht := toggle_eq_of_find s id p hfind hpos
  have hfind2 : findMedicineIndexById (toggleAvailabilityById s id).1
      (readInt id 1 1000000) = (p : Int) := by
    rw [ht, ← hfind]
    unfold findMedicineIndexById
    apply findIdLoop_congr
    intro k
    by_cases hk : k = p
    · subst hk; simp [Function.update]
    · simp [Function.update, hk]
  have ht2 := toggle_eq_of_find (toggleAvailabilityById s id).1 id p hfind2
    (by rw [ht]; exact hpos)
  rw [ht2, ht, hfind]
  simp only [Int.toNat_ofNat, Function.update_same, available, prescriptionRequired,
    xor_avail_and_presc]
  refine ⟨?_, trivial, trivial, trivial, ?_, trivial, trivial, trivial, ?_⟩
  · exact decide_xor_avail _
  · intro k hk
    simp [Function.update, hk]
  · simp only [Function.update_idem, xor_xor_self]
    simp

theorem toggle_flips_available_witness :
    (∃ m ∈ live sampleState, m.id = readInt 104 1 1000000) ∧
    available ((toggleAvailabilityById sampleState 104).1.meds
        (findMedicineIndexById sampleState (readInt 104 1 1000000)).toNat) =
      !available (sampleState.meds
        (findMedicineIndexById sampleState (readInt 104 1 1000000)).toNat) ∧
    (sampleState.meds 3).quantity = 0 ∧
    available ((toggleAvailabilityById sampleState 104).1.meds 3) = true :=
  ⟨by decide, (toggle_flips_available sampleState 104 (by decide)).1, by decide, by decide⟩

/-- The expiry search loop keeps, in order, the visited records that pass the
month and year tests. -/
theorem expirySearchLoop_eq (meds : Nat → Medicine) (month year : Int) :
    ∀ (n i : Nat), expirySearchLoop meds month year n i =
      ((List.range' i n).map meds).filter (fun r =>
        decide ((month = 0 ∨ r.expiryMonth = month) ∧ (year = 0 ∨ r.expiryYear = year))) := by
  intro n
  induction n with
  | zero => intro i; rfl
  | succ n ih =>
    intro i
    simp only [expirySearchLoop, List.range'_succ, List.map_cons, List.filter_cons, ih (i + 1)]
    by_cases hm : month ≠ 0 ∧ (meds i).expiryMonth ≠ month
    · have hno : ¬ ((month = 0 ∨ (meds i).expiryMonth = month) ∧
          (year = 0 ∨ (meds i).expiryYear = year)) := by
        rintro ⟨h1 | h1, _⟩
        · exact hm.1 h1
        · exact hm.2 h1
      simp only [if_pos hm, decide_eq_false hno]
      by_cases hy : year ≠ 0 ∧ (meds i).expiryYear ≠ year <;> simp [hy]
    · have hm' : month = 0 ∨ (meds i).expiryMonth = month := by
        by_cases h0 : month = 0
        · exact Or.inl h0
        · right
          by_contra hc
          exact hm ⟨h0, hc⟩
      simp only [if_neg hm]
      by_cases hy : year ≠ 0 ∧ (meds i).expiryYear ≠ year
      · have hno : ¬ ((month = 0 ∨ (meds i).expiryMonth = month) ∧
            (year = 0 ∨ (meds i).expiryYear = year)) := by
          rintro ⟨_, h1 | h1⟩
          · exact hy.1 h1
          · exact hy.2 h1
        simp [if_pos hy, decide_eq_false hno]
      · have hy' : year = 0 ∨ (meds i).expiryYear = year := by
          by_cases h0 : year = 0
          · exact Or.inl h0
          · right
            by_contra hc
            exact hy ⟨h0, hc⟩
        have hyes : (month = 0 ∨ (meds i).expiryMonth = month) ∧
            (year = 0 ∨ (meds i).expiryYear = year) := ⟨hm', hy'⟩
        simp [if_neg hy, decide_eq_true hyes]

/-- The expiry search as a filter of the main store, for the values `readInt`
returned. -/
theorem searchByExpiry_filter (s : State) (month year : Int) :
    searchByExpiry s month year =
      (live s).filter (fun r =>
        decide ((readInt month 0 12 = 0 ∨ r.expiryMonth = readInt month 0 12) ∧
          (readInt year 0 9999 = 0 ∨ r.expiryYear = readInt year 0 9999))) := by
  unfold searchByExpiry
  split_ifs with h0
  · simp [live, h0]
  · rw [expirySearchLoop_eq, live, List.range_eq_range']

/-- C15: `searchByExpiry` selects, in store order, exactly the records that
match the month (0 matches any) and the year (0 matches any), and writes
nothing; with 0 and 0 it returns every record, with 0 and 2024 the records
expiring in 2024 whatever their month. -/
theorem searchByExpiry_wildcards (s : State) (month year : Int) :
    searchByExpiry s month year =
      (live s).filter (fun r =>
        decide ((readInt month 0 12 = 0 ∨ r.expiryMonth = readInt month 0 12) ∧
          (readInt year 0 9999 = 0 ∨ r.expiryYear = readInt year 0 9999))) ∧
    searchByExpiry s 0 0 = live s ∧
    searchByExpiry s 0 2024 = (live s).filter (fun r => decide (r.expiryYear = 2024)) ∧
    step s (Op.searchByExpiry month year) = s := by
  refine ⟨searchByExpiry_filter s month year, ?_, ?_, rfl⟩
  · rw [searchByExpiry_filter]
    have h1 : readInt 0 0 12 = 0 := by decide
    have h2 : readInt 0 0 9999 = 0 := by decide
    simp [h1, h2]
  · rw [searchByExpiry_filter]
    have h1 : readInt 0 0 12 = 0 := by decide
    have h2 : readInt 2024 0 9999 = 2024 := by decide
    simp [h1, h2]

/-- The low-stock loop keeps, in order, the visited records whose quantity is
at most the threshold. -/
theorem lowStockLoop_eq (meds : Nat → Medicine) (thresh : Int) :
    ∀ (n i : Nat), lowStockLoop meds thresh n i =
      ((List.range' i n).map meds).filter (fun r => decide (r.quantity ≤ thresh)) := by
  intro n
  induction n with
  | zero => intro i; rfl
  | succ n ih =>
    intro i
    simp only [lowStockLoop, List.range'_succ, List.map_cons, List.filter_cons, ih (i + 1)]
    by_cases h : (meds i).quantity ≤ thresh <;> simp [h]

theorem lowStockReminder_filter (s : State) (thresh : Int) :
    lowStockReminder s thresh =
      (live s).filter (fun r => decide (r.quantity ≤ readInt thresh 0 1000000)) := by
  unfold lowStockReminder
  split_ifs with h0
  · simp [live, h0]
  · rw [lowStockLoop_eq, live, List.range_eq_range']

/-- C16: `lowStockReminder` reports, in store order, exactly the records whose
quantity is at most the threshold, and writes nothing; with threshold 0 and no
negative quantity these are the records with quantity 0.  In the scenario
store threshold 50 gives the record with id 102 only. -/
theorem lowStockReminder_exact (s : State) (thresh : Int) :
    lowStockReminder s thresh =
      (live s).filter (fun r => decide (r.quantity ≤ readInt thresh 0 1000000)) ∧
    ((∀ r ∈ live s, 0 ≤ r.quantity) →
      lowStockReminder s 0 = (live s).filter (fun r => decide (r.quantity = 0))) ∧
    step s (Op.lowStockReminder thresh) = s ∧
    (lowStockReminder scenarioState 50).map (fun r => r.id) = [102] := by
  refine ⟨lowStockReminder_filter s thresh, ?_, rfl, by decide⟩
  intro hnn
  rw [lowStockReminder_filter]
  have h0 : readInt 0 0 1000000 = 0 := by decide
  rw [h0]
  apply List.filter_congr
  intro r hr
  have := hnn r hr
  by_cases hq : r.quantity = 0
  · simp [hq]
  · have hlt : ¬ r.quantity ≤ 0 := by omega
    simp [hq, hlt]

theorem lowStockReminder_exact_witness :
    (∀ r ∈ live scenarioState, 0 ≤ r.quantity) ∧
    lowStockReminder scenarioState 0 =
      (live scenarioState).filter (fun r => decide (r.quantity = 0)) ∧
    (lowStockReminder scenarioState 0).map (fun r => r.id) = [102] :=
  ⟨by decide, (lowStockReminder_exact scenarioState 0).2.1 (by decide), by decide⟩

/-- The expiry reminder loop keeps, in order, the visited records whose expiry
year is at most the given year. -/
theorem expiryReminderLoop_eq (meds : Nat → Medicine) (year : Int) :
    ∀ (n i : Nat), expiryReminderLoop meds year n i =
      ((List.range' i n).map meds).filter (fun r => decide (r.expiryYear ≤ year)) := by
  intro n
  induction n with
  | zero => intro i; rfl
  | succ n ih =>
    intro i
    simp only [expiryReminderLoop, List.range'_succ, List.map_cons, List.filter_cons,
      ih (i + 1)]
    by_cases h : (meds i).expiryYear ≤ year <;> simp [h]

/-- C17: `expiryReminderForYear` reports, in store order, exactly the records
whose expiry year is at most the given year (the month is not looked at), and
writes nothing.  In the scenario store year 2024 gives the record with id 102
only. -/
theorem expiryReminderForYear_exact (s : State) (year : Int) :
    expiryReminderForYear s year =
      (live s).filter (fun r => decide (r.expiryYear ≤ year)) ∧
    step s (Op.expiryReminderForYear year) = s ∧
    (expiryReminderForYear scenarioState 2024).map (fun r => r.id) = [102] := by
  refine ⟨?_, rfl, by decide⟩
  unfold expiryReminderForYear
  split_ifs with h0
  · simp [live, h0]
  · rw [expiryReminderLoop_eq, live, List.range_eq_range']

/-- What the name lookup loop returns: -1 when no slot it visits has the name,
else the first slot that has it. -/
theorem findNameLoop_spec (meds : Nat → Medicine) (name : List Nat) :
    ∀ (n i : Nat),
      (findNameLoop meds name n i = -1 ∧ ∀ k, i ≤ k → k < i + n → (meds k).name ≠ name) ∨
      (∃ p, i ≤ p ∧ p < i + n ∧ findNameLoop meds name n i = (p : Int) ∧ (meds p).name = name ∧
        ∀ k, i ≤ k → k < p → (meds k).name ≠ name) := by
  intro n
  induction n with
  | zero => intro i; exact Or.inl ⟨rfl, fun k h1 h2 => by omega⟩
  | succ n ih =>
    intro i
    simp only [findNameLoop]
    by_cases h : strcmp (meds i).name name = 0
    · have heq := (strcmp_eq_zero_iff _ _).1 h
      exact Or.inr ⟨i, le_refl _, by omega, by rw [if_pos h], heq, fun k h1 h2 => by omega⟩
    · have hne : (meds i).name ≠ name := fun hc => h ((strcmp_eq_zero_iff _ _).2 hc)
      rw [if_neg h]
      rcases ih (i + 1) with ⟨h1, h2⟩ | ⟨p, hp1, hp2, hp3, hp4, hp5⟩
      · refine Or.inl ⟨h1, fun k hk1 hk2 => ?_⟩
        by_cases hki : k = i
        · subst hki; exact hne
        · exact h2 k (by omega) (by omega)
      · refine Or.inr ⟨p, by omega, by omega, hp3, hp4, fun k hk1 hk2 => ?_⟩
        by_cases hki : k = i
        · subst hki; exact hne
        · exact hp5 k (by omega) hk2

/-- C18: the id lookup and the name lookup return the smallest index below the
count whose record has the id (the exact name), and -1 exactly when no record
below the count has it; a name differing in letter case only is not found. -/
theorem first_match_lookup (s : State) (id : Int) (name : List Nat) :
    ((findMedicineIndexById s id = -1 ↔ ∀ k, k < s.medCount → (s.meds k).id ≠ id) ∧
     (∀ p : Nat, findMedicineIndexById s id = (p : Int) ↔
        (p < s.medCount ∧ (s.meds p).id = id ∧ ∀ k, k < p → (s.meds k).id ≠ id)) ∧
     (findMedicineIndexById s id = -1 ∨
        ∃ p : Nat, p < s.medCount ∧ findMedicineIndexById s id = (p : Int))) ∧
    ((findMedicineIndexByName s name = -1 ↔ ∀ k, k < s.medCount → (s.meds k).name ≠ name) ∧
     (∀ p : Nat, findMedicineIndexByName s name = (p : Int) ↔
        (p < s.medCount ∧ (s.meds p).name = name ∧ ∀ k, k < p → (s.meds k).name ≠ name)) ∧
     (findMedicineIndexByName s name = -1 ∨
        ∃ p : Nat, p < s.medCount ∧ findMedicineIndexByName s name = (p : Int))) ∧
    (findMedicineIndexByName sampleState (bytes "Paracetamol") = 0 ∧
     findMedicineIndexByName sampleState (bytes "paracetamol") = -1) := by
  refine ⟨?_, ?_, by decide, by decide⟩
  · unfold findMedicineIndexById
    rcases findIdLoop_spec s.meds id s.medCount 0 with ⟨h1, h2⟩ | ⟨q, _, hq2, hq3, hq4, hq5⟩
    · refine ⟨⟨fun _ k hk => h2 k (Nat.zero_le _) (by omega), fun _ => h1⟩, ?_, Or.inl h1⟩
      intro p
      rw [h1]
      constructor
      · intro hc; omega
      · rintro ⟨hp, hpid, _⟩
        exact absurd hpid (h2 p (Nat.zero_le _) (by omega))
    · refine ⟨⟨fun hc => by rw [hq3] at hc; omega,
        fun hc => absurd hq4 (hc q (by omega))⟩, ?_, Or.inr ⟨q, by omega, hq3⟩⟩
      intro p
      rw [hq3]
      constructor
      · intro hc
        have hpq : q = p := by exact_mod_cast hc
        subst hpq
        exact ⟨by omega, hq4, fun k hk => hq5 k (Nat.zero_le _) hk⟩
      · rintro ⟨hp, hpid, hfirst⟩
        have hpq : q = p := by
          by_contra hne
          rcases Nat.lt_or_gt_of_ne hne with hlt | hgt
          · exact hfirst q hlt hq4
          · exact hq5 p (Nat.zero_le _) hgt hpid
        rw [hpq]
  · unfold findMedicineIndexByName
    rcases findNameLoop_spec s.meds name s.medCount 0 with
      ⟨h1, h2⟩ | ⟨q, _, hq2, hq3, hq4, hq5⟩
    · refine ⟨⟨fun _ k hk => h2 k (Nat.zero_le _) (by omega), fun _ => h1⟩, ?_, Or.inl h1⟩
      intro p
      rw [h1]
      constructor
      · intro hc; omega
      · rintro ⟨hp, hpid, _⟩
        exact absurd hpid (h2 p (Nat.zero_le _) (by omega))
    · refine ⟨⟨fun hc => by rw [hq3] at hc; omega,
        fun hc => absurd hq4 (hc q (by omega))⟩, ?_, Or.inr ⟨q, by omega, hq3⟩⟩
      intro p
      rw [hq3]
      constructor
      · intro hc
        have hpq : q = p := by exact_mod_cast hc
        subst hpq
        exact ⟨by omega, hq4, fun k hk => hq5 k (Nat.zero_le _) hk⟩
      · rintro ⟨hp, hpid, hfirst⟩
        have hpq : q = p := by
          by_contra hne
          rcases Nat.lt_or_gt_of_ne hne with hlt | hgt
          · exact hfirst q hlt hq4
          · exact hq5 p (Nat.zero_le _) hgt hpid
        rw [hpq]

theorem or_avail_keeps_rest (f : Nat) :
    (f ||| FLAG_AVAILABLE) &&& (0xFFFFFFFF - FLAG_AVAILABLE) =
      f &&& (0xFFFFFFFF - FLAG_AVAILABLE) := by
  simp only [FLAG_AVAILABLE]
  have h : (1 : Nat) &&& (0xFFFFFFFF - 1) = 0 := by decide
  rw [Nat.and_distrib_right, h, Nat.or_zero]

theorem mask_avail_keeps_rest (f : Nat) :
    (f &&& (0xFFFFFFFF - FLAG_AVAILABLE)) &&& (0xFFFFFFFF - FLAG_AVAILABLE) =
      f &&& (0xFFFFFFFF - FLAG_AVAILABLE) := by
  rw [Nat.and_assoc, Nat.and_self]

theorem xor_presc_keeps_rest (f : Nat) :
    (f ^^^ FLAG_PRESCRIPTION) &&& (0xFFFFFFFF - FLAG_PRESCRIPTION) =
      f &&& (0xFFFFFFFF - FLAG_PRESCRIPTION) := by
  simp only [FLAG_PRESCRIPTION]
  have h : (2 : Nat) &&& (0xFFFFFFFF - 2) = 0 := by decide
  rw [Nat.and_xor_distrib_right, h, Nat.xor_zero]

/-- C19: for a present id every update choice changes only its own target in
the located record: 1 the name, 2 the company, 3 the quantity and bit 0 of the
flags, 4 the expiry month and year, 5 the price, 6 bit 1 of the flags, 7
nothing.  The id, the other fields, the other records, their order and the
counts stay as they were. -/
theorem update_frame (s : State) (id choice : Int) (tok : List Nat) (x y : Int)
    (hpres : ∃ m ∈ live s, m.id = readInt id 1 1000000) :
    (updateMedicineById s id choice tok x y).medCount = s.medCount ∧
    (updateMedicineById s id choice tok x y).branchMeds = s.branchMeds ∧
    (updateMedicineById s id choice tok x y).branchCount = s.branchCount ∧
    (∀ k, k ≠ (findMedicineIndexById s (readInt id 1 1000000)).toNat →
      (updateMedicineById s id choice tok x y).meds k = s.meds k) ∧
    ((updateMedicineById s id choice tok x y).meds
        (findMedicineIndexById s (readInt id 1 1000000)).toNat).id =
      (s.meds (findMedicineIndexById s (readInt id 1 1000000)).toNat).id ∧
    (1 ≤ readInt choice 1 7 ∧ readInt choice 1 7 ≤ 7) ∧
    (readInt choice 1 7 = 1 →
      (updateMedicineById s id choice tok x y).meds
          (findMedicineIndexById s (readInt id 1 1000000)).toNat =
        { s.meds (findMedicineIndexById s (readInt id 1 1000000)).toNat with
          name := readString tok MAX_NAME_LEN }) ∧
    (readInt choice 1 7 = 2 →
      (updateMedicineById s id choice tok x y).meds
          (findMedicineIndexById s (readInt id 1 1000000)).toNat =
        { s.meds (findMedicineIndexById s (readInt id 1 1000000)).toNat with
          company := readString tok MAX_COMPANY_LEN }) ∧
    (readInt choice 1 7 = 3 →
      (updateMedicineById s id choice tok x y).meds
          (findMedicineIndexById s (readInt id 1 1000000)).toNat =
        { s.meds (findMedicineIndexById s (readInt id 1 1000000)).toNat with
          quantity := readInt x 0 1000000,
          flags := ((updateMedicineById s id choice tok x y).meds
            (findMedicineIndexById s (readInt id 1 1000000)).toNat).flags } ∧
      ((updateMedicineById s id choice tok x y).meds
          (findMedicineIndexById s (readInt id 1 1000000)).toNat).flags &&&
          (0xFFFFFFFF - FLAG_AVAILABLE) =
        (s.meds (findMedicineIndexById s (readInt id 1 1000000)).toNat).flags &&&
          (0xFFFFFFFF - FLAG_AVAILABLE)) ∧
    (readInt choice 1 7 = 4 →
      (updateMedicineById s id choice tok x y).meds
          (findMedicineIndexById s (readInt id 1 1000000)).toNat =
        { s.meds (findMedicineIndexById s (readInt id 1 1000000)).toNat with
          expiryMonth := readInt x 1 12, expiryYear := readInt y 2020 9999 }) ∧
    (readInt choice 1 7 = 5 →
      (updateMedicineById s id choice tok x y).meds
          (findMedicineIndexById s (readInt id 1 1000000)).toNat =
        { s.meds (findMedicineIndexById s (readInt id 1 1000000)).toNat with
          price := readInt x 0 1000000 }) ∧
    (readInt choice 1 7 = 6 →
      (updateMedicineById s id choice tok x y).meds
          (findMedicineIndexById s (readInt id 1 1000000)).toNat =
        { s.meds (findMedicineIndexById s (readInt id 1 1000000)).toNat with
          flags := ((updateMedicineById s id choice tok x y).meds
            (findMedicineIndexById s (readInt id 1 1000000)).toNat).flags } ∧
      ((updateMedicineById s id choice tok x y).meds
          (findMedicineIndexById s (readInt id 1 1000000)).toNat).flags &&&
          (0xFFFFFFFF - FLAG_PRESCRIPTION) =
        (s.meds (findMedicineIndexById s (readInt id 1 1000000)).toNat).flags &&&
          (0xFFFFFFFF - FLAG_PRESCRIPTION)) ∧
    (readInt choice 1 7 = 7 → updateMedicineById s id choice tok x y = s) := by
  obtain ⟨p, hp, hfind, _, _⟩ := find_of_present s _ hpres
  rw [update_eq_of_find s id choice tok x y p hfind (by omega), hfind]
  simp only [Int.toNat_ofNat, Function.update_same]
  have hb := readInt_bounds choice 1 7 (by decide)
  refine ⟨trivial, trivial, trivial, ?_, ?_, hb, ?_, ?_, ?_, ?_, ?_, ?_, ?_⟩
  · intro k hk
    simp [Function.update, hk]
  · simp only [applyChoice]
    split_ifs <;> rfl
  · intro hc
    simp [applyChoice, hc]
  · intro hc
    simp [applyChoice, hc]
  · intro hc
    have h3 : applyChoice (s.meds p) 3 tok x y =
        { s.meds p with
          quantity := readInt x 0 1000000,
          flags := if readInt x 0 1000000 > 0 then (s.meds p).flags ||| FLAG_AVAILABLE
                   else (s.meds p).flags &&& (0xFFFFFFFF - FLAG_AVAILABLE) } := by
      simp [applyChoice]
    rw [hc, h3]
    refine ⟨rfl, ?_⟩
    simp only
    split_ifs
    · exact or_avail_keeps_rest _
    · exact mask_avail_keeps_rest _
  · intro hc
    simp [applyChoice, hc]
  · intro hc
    simp [applyChoice, hc]
  · intro hc
    have h6 : applyChoice (s.meds p) 6 tok x y =
        { s.meds p with flags := (s.meds p).flags ^^^ FLAG_PRESCRIPTION } := by
      simp [applyChoice]
    rw [hc, h6]
    exact ⟨rfl, xor_presc_keeps_rest _⟩
  · intro hc
    have h7 : applyChoice (s.meds p) 7 tok x y = s.meds p := by
      simp [applyChoice]
    rw [hc, h7, Function.update_eq_self]

theorem update_frame_witness :
    (∃ m ∈ live sampleState, m.id = readInt 102 1 1000000) ∧
    (updateMedicineById sampleState 102 6 [] 0 0).medCount = sampleState.medCount ∧
    (live (updateMedicineById sampleState 102 6 [] 0 0)).map (fun m => m.flags) =
      [1, 1, 1, 0, 1] ∧
    (live (updateMedicineById sampleState 102 3 [] 0 0)).map (fun m => (m.quantity, m.flags)) =
      [(120, 1), (0, 2), (10, 1), (0, 0), (200, 1)] :=
  ⟨by decide, (update_frame sampleState 102 6 [] 0 0 (by decide)).1, by decide, by decide⟩

/-- The merge loop keeps the names of the main store pairwise distinct, also
when it stops at capacity. -/
theorem mergeLoop_uniqueNames :
    ∀ (n i : Nat) (s : State), uniqueNames s → uniqueNames (mergeLoop n i s).1 := by
  intro n
  induction n with
  | zero => intro i s h; exact h
  | succ n ih =>
    intro i s h
    simp only [mergeLoop]
    split_ifs with h1 h2
    · exact ih (i + 1) s h
    · exact h
    · apply ih
      have hmem : ¬ (s.branchMeds i).name ∈ (live s).map (fun m => m.name) :=
        fun hc => h1 ((dupLoop_iff_mem s _).2 hc)
      unfold uniqueNames at h ⊢
      rw [live_append, List.map_append]
      refine List.nodup_append.2 ⟨h, List.nodup_singleton _, ?_⟩
      intro x hx1 hx2
      simp only [List.map_cons, List.map_nil, List.mem_singleton] at hx2
      exact hmem (hx2 ▸ hx1)

theorem mergeSpec_concat (xs ys : List Medicine) :
    ∀ main : List Medicine,
      mergeSpec main (xs ++ ys) = mergeSpec (mergeSpec main xs) ys ∧
      mergeSpecReport main (xs ++ ys) =
        mergeSpecReport main xs ++ mergeSpecReport (mergeSpec main xs) ys := by
  induction xs with
  | nil => intro main; simp [mergeSpec, mergeSpecReport]
  | cons x xs ih =>
    intro main
    simp only [List.cons_append, mergeSpec, mergeSpecReport]
    split_ifs
    · exact ⟨(ih main).1, congrArg (List.cons _) (ih main).2⟩
    · exact ⟨(ih _).1, congrArg (List.cons _) (ih _).2⟩

/-- Branch records none of which has the name `nm` add no record named `nm` to
main and print no line about `nm`. -/
theorem mergeSpec_other_names (nm : List Nat) (xs : List Medicine) :
    ∀ main : List Medicine, (∀ r ∈ xs, r.name ≠ nm) →
      (mergeSpec main xs).filter (fun r => decide (r.name = nm)) =
        main.filter (fun r => decide (r.name = nm)) ∧
      (mergeSpecReport main xs).count (MergeMsg.merged nm) = 0 ∧
      (mergeSpecReport main xs).count (MergeMsg.duplicateSkipped nm) = 0 := by
  induction xs with
  | nil => intro main _; simp [mergeSpec, mergeSpecReport]
  | cons x xs ih =>
    intro main h
    have hx : x.name ≠ nm := h x (List.mem_cons_self _ _)
    have hxs : ∀ r ∈ xs, r.name ≠ nm := fun r hr => h r (List.mem_cons_of_mem _ hr)
    simp only [mergeSpec, mergeSpecReport]
    split_ifs
    · obtain ⟨h1, h2, h3⟩ := ih main hxs
      refine ⟨h1, ?_, ?_⟩
      · rw [List.count_cons, h2]; simp
      · rw [List.count_cons, h3]; simp [hx]
    · obtain ⟨h1, h2, h3⟩ := ih (main ++ [x]) hxs
      refine ⟨?_, ?_, ?_⟩
      · rw [h1, List.filter_append]
        simp [hx]
      · rw [List.count_cons, h2]; simp [hx]
      · rw [List.count_cons, h3]; simp

/-- Once main holds the name `nm`, every later branch record named `nm` is
reported as a skipped duplicate and none is added. -/
theorem mergeSpec_held_name (nm : List Nat) (ys : List Medicine) :
    ∀ main : List Medicine, nm ∈ main.map (fun m => m.name) →
      (mergeSpec main ys).filter (fun r => decide (r.name = nm)) =
        main.filter (fun r => decide (r.name = nm)) ∧
      (mergeSpecReport main ys).count (MergeMsg.merged nm) = 0 ∧
      (mergeSpecReport main ys).count (MergeMsg.duplicateSkipped nm) =
        (ys.filter (fun r => decide (r.name = nm))).length := by
  induction ys with
  | nil => intro main _; simp [mergeSpec, mergeSpecReport]
  | cons y ys ih =>
    intro main h
    simp only [mergeSpec, mergeSpecReport]
    split_ifs with hy
    · obtain ⟨h1, h2, h3⟩ := ih main h
      refine ⟨h1, ?_, ?_⟩
      · rw [List.count_cons, h2]; simp
      · rw [List.count_cons, h3]
        by_cases hyn : y.name = nm
        · simp [hyn]
        · simp [hyn]
    · have hyn : y.name ≠ nm := fun hc => hy (hc ▸ h)
      have h' : nm ∈ (main ++ [y]).map (fun m => m.name) := by
        rw [List.map_append]
        exact List.mem_append_left _ h
      obtain ⟨h1, h2, h3⟩ := ih (main ++ [y]) h'
      refine ⟨?_, ?_, ?_⟩
      · rw [h1, List.filter_append]
        simp [hyn]
      · rw [List.count_cons, h2]; simp [hyn]
      · rw [List.count_cons, h3]; simp [hyn]


/-- With a non-empty branch and no overflow, the merge is the specified merge
and its report, followed by the closing line. -/
theorem merge_eq_spec (s : State) (h0 : s.branchCount ≠ 0)
    (hcap : (mergeSpec (live s) (liveBranch s)).length ≤ MAX_MEDICINES) :
    live (mergeBranchIntoMain s).1 = mergeSpec (live s) (liveBranch s) ∧
    (mergeBranchIntoMain s).2 =
      mergeSpecReport (live s) (liveBranch s) ++
        [MergeMsg.complete (mergeBranchIntoMain s).1.medCount] := by
  unfold mergeBranchIntoMain
  simp only [liveBranch, List.range_eq_range'] at hcap ⊢
  obtain ⟨h1, _, _, h4⟩ := mergeLoop_spec s.branchCount 0 s hcap
  rw [if_neg h0]
  exact ⟨h1, by simp only; rw [h4]⟩

/-- C20 (amended): the merge keeps the names of main pairwise distinct for
every branch store; and when the merge does not run into the capacity stop, of
the branch records sharing a name that main does not hold, the first is the
one merged and each later one is reported as a skipped duplicate. -/
theorem merge_name_collisions (s : State) :
    (uniqueNames s → uniqueNames (mergeBranchIntoMain s).1) ∧
    ((mergeSpec (live s) (liveBranch s)).length ≤ MAX_MEDICINES →
      ∀ (pre rest : List Medicine) (b : Medicine),
        liveBranch s = pre ++ b :: rest → (∀ r ∈ pre, r.name ≠ b.name) →
        b.name ∉ (live s).map (fun m => m.name) →
        (live (mergeBranchIntoMain s).1).filter (fun r => decide (r.name = b.name)) = [b] ∧
        (mergeBranchIntoMain s).2.count (MergeMsg.merged b.name) = 1 ∧
        (mergeBranchIntoMain s).2.count (MergeMsg.duplicateSkipped b.name) =
          (rest.filter (fun r => decide (r.name = b.name))).length) := by
  constructor
  · intro h
    unfold mergeBranchIntoMain
    split_ifs
    · exact h
    · exact mergeLoop_uniqueNames s.branchCount 0 s h
  · intro hcap pre rest b hsplit hfirst hnew
    have h0 : s.branchCount ≠ 0 := by
      intro hc
      have hlen := congrArg List.length hsplit
      simp [liveBranch, hc] at hlen
      omega
    obtain ⟨hlive, hlog⟩ := merge_eq_spec s h0 hcap
    rw [hlive, hlog, hsplit]
    obtain ⟨hc1, hc2⟩ := mergeSpec_concat pre (b :: rest) (live s)
    obtain ⟨hp1, hp2, hp3⟩ := mergeSpec_other_names b.name pre (live s) hfirst
    have hnone : (live s).filter (fun r => decide (r.name = b.name)) = [] := by
      rw [List.filter_eq_nil_iff]
      intro r hr hc
      exact hnew (List.mem_map.2 ⟨r, hr, by simpa using hc⟩)
    have hnew1 : b.name ∉ (mergeSpec (live s) pre).map (fun m => m.name) := by
      intro hc
      obtain ⟨r, hr, hrn⟩ := List.mem_map.1 hc
      have : r ∈ (mergeSpec (live s) pre).filter (fun r => decide (r.name = b.name)) :=
        List.mem_filter.2 ⟨hr, by simpa using hrn⟩
      rw [hp1, hnone] at this
      exact absurd this (List.not_mem_nil _)
    have hheld : b.name ∈ (mergeSpec (live s) pre ++ [b]).map (fun m => m.name) := by
      rw [List.map_append]
      exact List.mem_append_right _ (by simp)
    obtain ⟨hr1, hr2, hr3⟩ := mergeSpec_held_name b.name rest _ hheld
    rw [hc1, hc2]
    simp only [mergeSpec, mergeSpecReport, if_neg hnew1]
    refine ⟨?_, ?_, ?_⟩
    · rw [hr1, List.filter_append, hp1, hnone]
      simp
    · rw [List.count_append, List.count_append, hp2, List.count_cons, hr2]
      simp
    · rw [List.count_append, List.count_append, hp3, List.count_cons, hr3]
      simp

set_option maxRecDepth 100000 in
/-- C20 (as stated) fails at capacity: main is full with pairwise distinct
names, the branch holds two records named `P`, a name main does not hold; the
merge stops at the first, so no record named `P` is merged and the second is
not reported as a skipped duplicate. -/
theorem merge_collision_at_capacity :
    uniqueNames fullState ∧
    (liveBranch fullState).map (fun m => m.name) = [bytes "P", bytes "P"] ∧
    bytes "P" ∉ (live fullState).map (fun m => m.name) ∧
    bytes "P" ∉ (live (mergeBranchIntoMain fullState).1).map (fun m => m.name) ∧
    MergeMsg.duplicateSkipped (bytes "P") ∉ (mergeBranchIntoMain fullState).2 ∧
    (mergeBranchIntoMain fullState).2 = [MergeMsg.mainFull, MergeMsg.complete 200] := by
  refine ⟨by decide, by decide, by decide, by decide, by decide, by decide⟩

theorem merge_name_collisions_witness :
    uniqueNames collideState ∧
    (mergeSpec (live collideState) (liveBranch collideState)).length ≤ MAX_MEDICINES ∧
    liveBranch collideState =
      [] ++ collideState.branchMeds 0 :: [collideState.branchMeds 1, collideState.branchMeds 2] ∧
    (collideState.branchMeds 0).name ∉ (live collideState).map (fun m => m.name) ∧
    uniqueNames (mergeBranchIntoMain collideState).1 ∧
    ((live (mergeBranchIntoMain collideState).1).filter
        (fun r => decide (r.name = (collideState.branchMeds 0).name)) =
      [collideState.branchMeds 0] ∧
     (mergeBranchIntoMain collideState).2.count
        (MergeMsg.merged (collideState.branchMeds 0).name) = 1 ∧
     (mergeBranchIntoMain collideState).2.count
        (MergeMsg.duplicateSkipped (collideState.branchMeds 0).name) =
      ([collideState.branchMeds 1, collideState.branchMeds 2].filter
        (fun r => decide (r.name = (collideState.branchMeds 0).name))).length) ∧
    (mergeBranchIntoMain collideState).2 =
      [MergeMsg.merged (bytes "P"), MergeMsg.merged (bytes "Q"),
       MergeMsg.duplicateSkipped (bytes "P"), MergeMsg.complete 3] :=
  ⟨by decide, by decide, by decide, by decide,
   (merge_name_collisions collideState).1 (by decide),
   (merge_name_collisions collideState).2 (by decide) [] _ _ (by decide)
     (fun r hr => absurd hr (List.not_mem_nil r)) (by decide),
   by decide⟩

/-! ## Theorems: merging twice -/

/-- After the merge loop the branch array is as before, every name main held
is still held, and every branch record the loop was to visit either has its
name in main or main is full. -/
theorem mergeLoop_saturates :
    ∀ (n i : Nat) (s : State),
      (mergeLoop n i s).1.branchMeds = s.branchMeds ∧
      (mergeLoop n i s).1.branchCount = s.branchCount ∧
      (∀ nm, nm ∈ (live s).map (fun m => m.name) →
        nm ∈ (live (mergeLoop n i s).1).map (fun m => m.name)) ∧
      (∀ j, i ≤ j → j < i + n →
        (s.branchMeds j).name ∈ (live (mergeLoop n i s).1).map (fun m => m.name) ∨
        (mergeLoop n i s).1.medCount ≥ MAX_MEDICINES) := by
  intro n
  induction n with
  | zero =>
    intro i s
    exact ⟨rfl, rfl, fun _ h => h, fun j h1 h2 => by omega⟩
  | succ n ih =>
    intro i s
    simp only [mergeLoop]
    by_cases hdup : dupLoop s.meds (s.branchMeds i).name s.medCount 0 = true
    · rw [if_pos hdup]
      obtain ⟨h1, hc, h2, h3⟩ := ih (i + 1) s
      refine ⟨h1, hc, h2, fun j hj1 hj2 => ?_⟩
      by_cases hji : j = i
      · subst hji
        exact Or.inl (h2 _ ((dupLoop_iff_mem s _).1 hdup))
      · exact h3 j (by omega) (by omega)
    · rw [if_neg hdup]
      by_cases hfull : s.medCount ≥ MAX_MEDICINES
      · rw [if_pos hfull]
        exact ⟨rfl, rfl, fun _ h => h, fun _ _ _ => Or.inr hfull⟩
      · rw [if_neg hfull]
        have hl := live_append s (s.branchMeds i)
        obtain ⟨h1, hc, h2, h3⟩ := ih (i + 1)
          { s with meds := Function.update s.meds s.medCount (s.branchMeds i),
                   medCount := s.medCount + 1 }
        rw [hl] at h2
        refine ⟨h1, hc, fun nm hnm => ?_, fun j hj1 hj2 => ?_⟩
        · apply h2
          rw [List.map_append]
          exact List.mem_append_left _ hnm
        · by_cases hji : j = i
          · subst hji
            left
            apply h2
            rw [List.map_append]
            exact List.mem_append_right _ (by simp)
          · exact h3 j (by omega) (by omega)

/-- When every branch record the loop is to visit has its name in main or
main is full, the merge loop leaves the state as it is. -/
theorem mergeLoop_fixed :
    ∀ (n i : Nat) (s : State),
      (∀ j, i ≤ j → j < i + n →
        (s.branchMeds j).name ∈ (live s).map (fun m => m.name) ∨
        s.medCount ≥ MAX_MEDICINES) →
      (mergeLoop n i s).1 = s := by
  intro n
  induction n with
  | zero => intro i s _; rfl
  | succ n ih =>
    intro i s h
    simp only [mergeLoop]
    by_cases hdup : dupLoop s.meds (s.branchMeds i).name s.medCount 0 = true
    · rw [if_pos hdup]
      exact ih (i + 1) s (fun j hj1 hj2 => h j (by omega) (by omega))
    · rw [if_neg hdup]
      have hfull : s.medCount ≥ MAX_MEDICINES := by
        rcases h i (le_refl _) (by omega) with hm | hf
        · exact absurd ((dupLoop_iff_mem s _).2 hm) hdup
        · exact hf
      rw [if_pos hfull]

set_option maxRecDepth 100000 in
/-- C21: the merge is idempotent: merging the same branch a second time leaves
the state exactly as the first merge left it, whether or not the first merge
stopped at capacity.  In the store with one free slot the first merge stops at
the second branch record; the second merge skips the first as a duplicate and
stops at the same record. -/
theorem merge_idempotent (s : State) :
    (mergeBranchIntoMain (mergeBranchIntoMain s).1).1 = (mergeBranchIntoMain s).1 ∧
    ((mergeBranchIntoMain nearlyFullState).2 =
       [MergeMsg.merged (bytes "P"), MergeMsg.mainFull, MergeMsg.complete 200] ∧
     (mergeBranchIntoMain (mergeBranchIntoMain nearlyFullState).1).2 =
       [MergeMsg.duplicateSkipped (bytes "P"), MergeMsg.mainFull, MergeMsg.complete 200]) := by
  refine ⟨?_, by decide, by decide⟩
  by_cases h0 : s.branchCount = 0
  · have h1 : (mergeBranchIntoMain s).1 = s := by
      unfold mergeBranchIntoMain
      rw [if_pos h0]
    rw [h1, h1]
  · have h1 : (mergeBranchIntoMain s).1 = (mergeLoop s.branchCount 0 s).1 := by
      unfold mergeBranchIntoMain
      rw [if_neg h0]
    obtain ⟨hb, hc, _, hsat⟩ := mergeLoop_saturates s.branchCount 0 s
    have h2 : (mergeBranchIntoMain (mergeLoop s.branchCount 0 s).1).1 =
        (mergeLoop s.branchCount 0 (mergeLoop s.branchCount 0 s).1).1 := by
      unfold mergeBranchIntoMain
      rw [hc, if_neg h0]
    rw [h1, h2]
    apply mergeLoop_fixed
    intro j hj1 hj2
    rw [hb]
    exact hsat j hj1 hj2

end Pharmacy
